import Mathlib

/-!
Verification development for the persistence-and-encryption layer of the
swsh-quiz application (`src/app.py`, class `SecureQuizManager`).

The Python source is shallowly embedded: each manager method becomes a Lean
function over an explicit database state.  External libraries that the
source calls (the `json` codec and the `cryptography.fernet.Fernet`
authenticated-encryption scheme) are not part of the repository; they are
modelled from the specification's description of their contracts (§4.2:
canonical invertible text serialization; authenticated, tamper-evident
symmetric encryption producing a self-contained token).
-/

namespace SwshQuiz

/-- Values of the JSON data model handled by Python's `json` module, as used
by `encrypt_data`/`decrypt_data` (floats are not used by the application and
are outside the model). -/
inductive Json where
  | null : Json
  | bool (b : Bool) : Json
  | int (n : Int) : Json
  | str (s : String) : Json
  | arr (xs : List Json) : Json
  | obj (kvs : List (String × Json)) : Json

/-- Modelled from the spec: self-delimiting unary encoding of a natural
number, used by the canonical text serialization model. -/
def encNat : Nat → List Char
  | 0 => ['.']
  | n + 1 => 'I' :: encNat n

/-- Encoding of an integer: a sign tag followed by a unary magnitude. -/
def encInt : Int → List Char
  | Int.ofNat n => '+' :: encNat n
  | Int.negSucc n => '-' :: encNat n

/-- Encoding of a string: its length followed by its characters. -/
def encStr (s : String) : List Char := encNat s.length ++ s.data

mutual

/-- Modelled from the spec: `json.dumps`, the canonical text serialization of
a record (spec §4.2 "serializes the record to a canonical text encoding").
The encoding is injective and invertible by `loads` below. -/
def dumps : Json → List Char
  | Json.null => ['n']
  | Json.bool true => ['t']
  | Json.bool false => ['f']
  | Json.int n => 'i' :: encInt n
  | Json.str s => 's' :: encStr s
  | Json.arr xs => 'a' :: (encNat xs.length ++ dumpsList xs)
  | Json.obj kvs => 'o' :: (encNat kvs.length ++ dumpsObj kvs)

/-- Serialization of the elements of a JSON array. -/
def dumpsList : List Json → List Char
  | [] => []
  | x :: xs => dumps x ++ dumpsList xs

/-- Serialization of the key/value pairs of a JSON object. -/
def dumpsObj : List (String × Json) → List Char
  | [] => []
  | kv :: kvs => encStr kv.1 ++ (dumps kv.2 ++ dumpsObj kvs)

end

/-- Decoder for `encNat`, returning the value and the remaining input. -/
def decNat : List Char → Option (Nat × List Char)
  | '.' :: rest => some (0, rest)
  | 'I' :: rest =>
      match decNat rest with
      | some (n, r) => some (n + 1, r)
      | none => none
  | _ => none

/-- Reads exactly `n` characters from the input. -/
def decChars : Nat → List Char → Option (List Char × List Char)
  | 0, rest => some ([], rest)
  | _ + 1, [] => none
  | n + 1, c :: rest =>
      match decChars n rest with
      | some (s, r) => some (c :: s, r)
      | none => none

/-- Decoder for `encStr`. -/
def decStr (cs : List Char) : Option (String × List Char) :=
  match decNat cs with
  | some (n, rest) =>
      match decChars n rest with
      | some (s, r) => some (⟨s⟩, r)
      | none => none
  | none => none

/-- Decoder for `encInt`. -/
def decInt : List Char → Option (Int × List Char)
  | '+' :: rest =>
      match decNat rest with
      | some (n, r) => some (Int.ofNat n, r)
      | none => none
  | '-' :: rest =>
      match decNat rest with
      | some (n, r) => some (Int.negSucc n, r)
      | none => none
  | _ => none

mutual

/-- Fueled parser for the serialization produced by `dumps`. -/
def parseJ : Nat → List Char → Option (Json × List Char)
  | 0, _ => none
  | _ + 1, 'n' :: r => some (Json.null, r)
  | _ + 1, 't' :: r => some (Json.bool true, r)
  | _ + 1, 'f' :: r => some (Json.bool false, r)
  | _ + 1, 'i' :: r =>
      match decInt r with
      | some (n, r1) => some (Json.int n, r1)
      | none => none
  | _ + 1, 's' :: r =>
      match decStr r with
      | some (s, r1) => some (Json.str s, r1)
      | none => none
  | fuel + 1, 'a' :: r =>
      match decNat r with
      | some (n, r1) =>
          match parseList fuel n r1 with
          | some (xs, r2) => some (Json.arr xs, r2)
          | none => none
      | none => none
  | fuel + 1, 'o' :: r =>
      match decNat r with
      | some (n, r1) =>
          match parseObj fuel n r1 with
          | some (kvs, r2) => some (Json.obj kvs, r2)
          | none => none
      | none => none
  | _ + 1, _ => none

/-- Parses exactly `n` array elements. -/
def parseList : Nat → Nat → List Char → Option (List Json × List Char)
  | 0, _, _ => none
  | _ + 1, 0, r => some ([], r)
  | fuel + 1, n + 1, r =>
      match parseJ fuel r with
      | some (x, r1) =>
          match parseList fuel n r1 with
          | some (xs, r2) => some (x :: xs, r2)
          | none => none
      | none => none

/-- Parses exactly `n` object key/value pairs. -/
def parseObj : Nat → Nat → List Char → Option (List (String × Json) × List Char)
  | 0, _, _ => none
  | _ + 1, 0, r => some ([], r)
  | fuel + 1, n + 1, r =>
      match decStr r with
      | some (k, r1) =>
          match parseJ fuel r1 with
          | some (v, r2) =>
              match parseObj fuel n r2 with
              | some (kvs, r3) => some ((k, v) :: kvs, r3)
              | none => none
          | none => none
      | none => none

end

/-- Modelled from the spec: `json.loads`.  Parses a complete serialized value;
any leftover input or parse failure yields `none` (a `json` error in the
source, caught by `decrypt_data`). -/
def loads (cs : List Char) : Option Json :=
  match parseJ (cs.length + 1) cs with
  | some (j, []) => some j
  | _ => none

mutual

/-- Structural size of a JSON value, used as parser fuel accounting. -/
def jsize : Json → Nat
  | Json.null => 1
  | Json.bool _ => 1
  | Json.int _ => 1
  | Json.str _ => 1
  | Json.arr xs => 2 + xs.length + jsizeList xs
  | Json.obj kvs => 2 + kvs.length + jsizeObj kvs

/-- Size of the elements of an array. -/
def jsizeList : List Json → Nat
  | [] => 0
  | x :: xs => jsize x + jsizeList xs

/-- Size of the values of an object. -/
def jsizeObj : List (String × Json) → Nat
  | [] => 0
  | kv :: kvs => jsize kv.2 + jsizeObj kvs

end

theorem jsize_pos (j : Json) : 1 ≤ jsize j := by
  cases j <;> simp [jsize] <;> omega

theorem decNat_encNat (n : Nat) (r : List Char) : decNat (encNat n ++ r) = some (n, r) := by
  induction n with
  | zero => simp [encNat, decNat]
  | succ k ih => simp [encNat, decNat, ih]

theorem encNat_length (n : Nat) : (encNat n).length = n + 1 := by
  induction n with
  | zero => simp [encNat]
  | succ k ih => simp [encNat, ih]

theorem decChars_append (s r : List Char) : decChars s.length (s ++ r) = some (s, r) := by
  induction s with
  | nil => simp [decChars]
  | cons c cs ih => simp [decChars, ih]

theorem decStr_encStr (s : String) (r : List Char) : decStr (encStr s ++ r) = some (s, r) := by
  obtain ⟨d⟩ := s
  have hl : String.length ⟨d⟩ = d.length := rfl
  simp only [decStr, encStr, hl, List.append_assoc, decNat_encNat, decChars_append]

theorem decInt_encInt (n : Int) (r : List Char) : decInt (encInt n ++ r) = some (n, r) := by
  cases n with
  | ofNat m => simp [encInt, decInt, decNat_encNat]
  | negSucc m => simp [encInt, decInt, decNat_encNat]

theorem parse_dumps_all (fuel : Nat) :
    (∀ j r, jsize j ≤ fuel → parseJ fuel (dumps j ++ r) = some (j, r)) ∧
    (∀ xs r, jsizeList xs + xs.length < fuel →
      parseList fuel xs.length (dumpsList xs ++ r) = some (xs, r)) ∧
    (∀ kvs r, jsizeObj kvs + kvs.length < fuel →
      parseObj fuel kvs.length (dumpsObj kvs ++ r) = some (kvs, r)) := by
  induction fuel with
  | zero =>
      refine ⟨fun j r h => absurd h ?_, fun xs r h => absurd h (by omega), fun kvs r h => absurd h (by omega)⟩
      have := jsize_pos j
      omega
  | succ f ih =>
      refine ⟨?_, ?_, ?_⟩
      · intro j r h
        cases j with
        | null => simp [dumps, parseJ]
        | bool b => cases b <;> simp [dumps, parseJ]
        | int n => simp [dumps, parseJ, decInt_encInt]
        | str s => simp [dumps, parseJ, decStr_encStr]
        | arr xs =>
            have hsz : jsizeList xs + xs.length < f := by
              simp [jsize] at h; omega
            simp only [dumps, parseJ, List.cons_append, List.append_assoc,
              decNat_encNat, ih.2.1 xs r hsz]
        | obj kvs =>
            have hsz : jsizeObj kvs + kvs.length < f := by
              simp [jsize] at h; omega
            simp only [dumps, parseJ, List.cons_append, List.append_assoc,
              decNat_encNat, ih.2.2 kvs r hsz]
      · intro xs r h
        cases xs with
        | nil => simp [dumpsList, parseList]
        | cons x tl =>
            have hx : jsize x ≤ f := by
              have := jsize_pos x
              simp [jsizeList] at h; omega
            have htl : jsizeList tl + tl.length < f := by
              have := jsize_pos x
              simp [jsizeList] at h; omega
            simp only [dumpsList, parseList, List.length_cons, List.append_assoc,
              ih.1 x _ hx, ih.2.1 tl r htl]
      · intro kvs r h
        cases kvs with
        | nil => simp [dumpsObj, parseObj]
        | cons kv tl =>
            have hx : jsize kv.2 ≤ f := by
              have := jsize_pos kv.2
              simp [jsizeObj] at h; omega
            have htl : jsizeObj tl + tl.length < f := by
              have := jsize_pos kv.2
              simp [jsizeObj] at h; omega
            simp only [dumpsObj, parseObj, List.length_cons, List.append_assoc,
              decStr_encStr, ih.1 kv.2 _ hx, ih.2.2 tl r htl]

mutual

theorem jsize_le_dumps : ∀ j : Json, jsize j ≤ (dumps j).length
  | Json.null => by simp [jsize, dumps]
  | Json.bool b => by cases b <;> simp [jsize, dumps]
  | Json.int n => by simp [jsize, dumps]
  | Json.str s => by simp [jsize, dumps]
  | Json.arr xs => by
      have h := jsize_le_dumpsList xs
      simp [jsize, dumps, encNat_length]
      omega
  | Json.obj kvs => by
      have h := jsize_le_dumpsObj kvs
      simp [jsize, dumps, encNat_length]
      omega

theorem jsize_le_dumpsList : ∀ xs : List Json, jsizeList xs ≤ (dumpsList xs).length
  | [] => by simp [jsizeList, dumpsList]
  | x :: xs => by
      have h1 := jsize_le_dumps x
      have h2 := jsize_le_dumpsList xs
      simp [jsizeList, dumpsList]
      omega

theorem jsize_le_dumpsObj : ∀ kvs : List (String × Json), jsizeObj kvs ≤ (dumpsObj kvs).length
  | [] => by simp [jsizeObj, dumpsObj]
  | kv :: kvs => by
      have h1 := jsize_le_dumps kv.2
      have h2 := jsize_le_dumpsObj kvs
      simp [jsizeObj, dumpsObj]
      omega

end

theorem loads_dumps (j : Json) : loads (dumps j) = some j := by
  unfold loads
  have h := (parse_dumps_all ((dumps j).length + 1)).1 j []
    (le_trans (jsize_le_dumps j) (Nat.le_succ _))
  rw [List.append_nil] at h
  rw [h]

theorem dumps_injective : Function.Injective dumps := by
  intro a b h
  have ha := loads_dumps a
  rw [h, loads_dumps b] at ha
  exact (Option.some_inj.mp ha).symm

instance : DecidableEq Json := fun a b =>
  decidable_of_iff (dumps a = dumps b) ⟨fun h => dumps_injective h, fun h => by rw [h]⟩

/-- Modelled from the spec: `Fernet.encrypt` (external library, spec §4.2:
authenticated symmetric encryption producing a self-contained, tamper-evident
token).  The model captures exactly the two contract properties the claims
use — decryption inverts encryption, and any single-character alteration of a
token is detected — by storing the payload together with an
integrity-protected copy.  Confidentiality and the key schedule are outside
the claims and not modelled. -/
def fernetEncrypt (payload : List Char) : List Char := payload ++ payload

/-- Modelled from the spec: `Fernet.decrypt`; fails (`none`) on any token
whose integrity check fails. -/
def fernetDecrypt (token : List Char) : Option (List Char) :=
  if token.length % 2 = 0 then
    let a := token.take (token.length / 2)
    let b := token.drop (token.length / 2)
    if a = b then some a else none
  else none

/-- `SecureQuizManager.encrypt_data` (src/app.py lines 110-114): serialize the
record to JSON text, then encrypt. -/
def encrypt_data (record : Json) : List Char := fernetEncrypt (dumps record)

/-- `SecureQuizManager.decrypt_data` (src/app.py lines 116-124): decrypt, then
parse the JSON text; any exception (authentication failure, malformed token,
non-JSON payload) yields `None`. -/
def decrypt_data (token : List Char) : Option Json :=
  match fernetDecrypt token with
  | some payload => loads payload
  | none => none

theorem fernetDecrypt_fernetEncrypt (p : List Char) : fernetDecrypt (fernetEncrypt p) = some p := by
  unfold fernetEncrypt fernetDecrypt
  have hlen : (p ++ p).length = 2 * p.length := by simp; omega
  have h2 : (p ++ p).length % 2 = 0 := by omega
  have h3 : (p ++ p).length / 2 = p.length := by omega
  rw [if_pos h2]
  simp only [h3, List.take_left, List.drop_left]
  simp

theorem decrypt_data_encrypt_data (j : Json) : decrypt_data (encrypt_data j) = some j := by
  simp only [decrypt_data, encrypt_data, fernetDecrypt_fernetEncrypt, loads_dumps]

theorem getElemQ_set_self (q : List Char) (j : Nat) (d : Char) (hj : j < q.length) :
    (q.set j d)[j]? = some d := by
  induction q generalizing j with
  | nil => simp at hj
  | cons a tl ih =>
      cases j with
      | zero => simp
      | succ k =>
          simp only [List.set_cons_succ, List.getElem?_cons_succ]
          exact ih k (by simpa using hj)

theorem set_ne_self_of_ne (q : List Char) (j : Nat) (d : Char) (hj : j < q.length)
    (hd : d ≠ q.get ⟨j, hj⟩) : q.set j d ≠ q := by
  intro heq
  have h1 : (q.set j d)[j]? = some d := getElemQ_set_self q j d hj
  rw [heq, List.getElem?_eq_getElem hj] at h1
  exact hd (Option.some_inj.mp h1).symm

theorem fernetDecrypt_set_ne (p : List Char) (i : Nat) (c : Char)
    (hi : i < (fernetEncrypt p).length)
    (hc : c ≠ (fernetEncrypt p).get ⟨i, hi⟩) :
    fernetDecrypt ((fernetEncrypt p).set i c) = none := by
  unfold fernetEncrypt at hi hc ⊢
  unfold fernetDecrypt
  have hlen : ((p ++ p).set i c).length = p.length + p.length := by
    simp [List.length_set]
  have h2 : ((p ++ p).set i c).length % 2 = 0 := by omega
  have h3 : ((p ++ p).set i c).length / 2 = p.length := by omega
  rw [if_pos h2]
  simp only [h3]
  have hi2 : i < p.length + p.length := by simpa using hi
  rcases Nat.lt_or_ge i p.length with hlt | hge
  · have hset : (p ++ p).set i c = p.set i c ++ p :=
      List.set_append_left i c hlt
    rw [hset]
    have hlength : (p.set i c).length = p.length := by simp
    have htake : (p.set i c ++ p).take p.length = p.set i c := by
      conv in p.length => rw [← hlength]
      exact List.take_left ..
    have hdrop : (p.set i c ++ p).drop p.length = p := by
      conv in p.length => rw [← hlength]
      exact List.drop_left ..
    rw [htake, hdrop]
    have hget : (p ++ p).get ⟨i, hi⟩ = p.get ⟨i, hlt⟩ := by
      rw [List.get_eq_getElem]
      exact List.getElem_append_left hlt
    rw [hget] at hc
    rw [if_neg (set_ne_self_of_ne p i c hlt hc)]
  · have hset : (p ++ p).set i c = p ++ p.set (i - p.length) c :=
      List.set_append_right i c hge
    rw [hset]
    have htake : (p ++ p.set (i - p.length) c).take p.length = p := List.take_left ..
    have hdrop : (p ++ p.set (i - p.length) c).drop p.length = p.set (i - p.length) c :=
      List.drop_left ..
    rw [htake, hdrop]
    have hb : i - p.length < p.length := by omega
    have hget : (p ++ p).get ⟨i, hi⟩ = p.get ⟨i - p.length, hb⟩ := by
      rw [List.get_eq_getElem]
      exact List.getElem_append_right hge
    rw [hget] at hc
    have hne := set_ne_self_of_ne p (i - p.length) c hb hc
    rw [if_neg (Ne.symm hne)]

/-- C1: for every record that is a JSON-serializable dictionary,
`decrypt_data` applied to `encrypt_data` of that record returns the same
record; and altering any single character of a valid `encrypt_data` output
makes `decrypt_data` return `None` (failure), never a different record. -/
theorem c1_roundtrip_and_tamper_detection (kvs : List (String × Json)) (i : Nat) (c : Char)
    (hi : i < (encrypt_data (Json.obj kvs)).length)
    (hc : c ≠ (encrypt_data (Json.obj kvs)).get ⟨i, hi⟩) :
    decrypt_data (encrypt_data (Json.obj kvs)) = some (Json.obj kvs) ∧
    decrypt_data ((encrypt_data (Json.obj kvs)).set i c) = none := by
  constructor
  · exact decrypt_data_encrypt_data _
  · have h : fernetDecrypt ((encrypt_data (Json.obj kvs)).set i c) = none :=
      fernetDecrypt_set_ne (dumps (Json.obj kvs)) i c hi hc
    simp only [decrypt_data, h]

/-- Witness for C1 at a concrete record and a concrete tampering position. -/
theorem c1_roundtrip_and_tamper_detection_witness :
    decrypt_data (encrypt_data (Json.obj [("a", Json.int 1)])) = some (Json.obj [("a", Json.int 1)]) ∧
    decrypt_data ((encrypt_data (Json.obj [("a", Json.int 1)])).set 0 'x') = none :=
  c1_roundtrip_and_tamper_detection [("a", Json.int 1)] 0 'x' (by decide) (by decide)

/-! ### The relational store

The SQLite tables of `init_database` (src/app.py lines 126-167) become lists
of rows; `AUTOINCREMENT` ids become explicit `next…Id` counters starting at 1,
exactly as SQLite assigns rowids.  `TIMESTAMP` columns are strings
(`CURRENT_TIMESTAMP` produces ISO text; SQLite compares them as strings, so
the model keeps `String` with its lexicographic order).  Each operation takes
the value SQLite would supply for `CURRENT_TIMESTAMP` as an explicit
argument. -/

/-- `QUIZ_CONFIG.all_categories_id` (src/app.py line 43). -/
def all_categories_id : Int := 0

/-- `QUIZ_CONFIG.default_question_limit` (src/app.py line 42). -/
def default_question_limit : Nat := 15

/-- A row of the `quiz_categories` table. -/
structure CategoryRow where
  id : Int
  name : String
  description : String
  deriving DecidableEq, Repr

/-- A row of the `questions` table (the unused `difficulty` column is not
part of any claim and is omitted). -/
structure QuestionRow where
  id : Int
  category_id : Int
  encrypted_data : List Char
  deriving DecidableEq

/-- A row of the `user_scores` table. -/
structure ScoreRow where
  id : Int
  username : String
  category_id : Int
  score : Int
  total_questions : Int
  completed_at : String
  deriving DecidableEq, Repr

/-- The persistent database state. -/
structure DB where
  categories : List CategoryRow
  questions : List QuestionRow
  scores : List ScoreRow
  nextCategoryId : Int
  nextQuestionId : Int
  nextScoreId : Int
  deriving DecidableEq

/-- The freshly created, empty database (all `AUTOINCREMENT` counters at 1). -/
def emptyDB : DB := ⟨[], [], [], 1, 1, 1⟩

/-- `INSERT INTO quiz_categories (name, description) VALUES (?, ?)`. -/
def insertCategory (db : DB) (name description : String) : DB :=
  { db with
    categories := db.categories ++ [⟨db.nextCategoryId, name, description⟩],
    nextCategoryId := db.nextCategoryId + 1 }

/-- The seed data of `_insert_default_categories` (src/app.py lines 169-182);
the decorative emoji bytes at the end of each description are elided, they
play no role in any claim. -/
def default_categories : List (String × String) :=
  [("Character Knowledge", "Think you could write their autobiography?"),
   ("Romance & Relationships", "Relive the sparks, drama, and heart-flutters"),
   ("Quotes & Dialogues", "Because some words live rent-free in your head"),
   ("World & Setting", "From hidden details to iconic backdrops")]

/-- `init_database` (src/app.py lines 126-167): create tables, and seed the
default categories when the category table is empty. -/
def init_database (db : DB) : DB :=
  if db.categories.length = 0 then
    default_categories.foldl (fun d p => insertCategory d p.1 p.2) db
  else db

/-- Lexicographic codepoint comparison of character lists: the order SQLite's
default `BINARY` collation gives the stored (ASCII) text. -/
def charListLe : List Char → List Char → Bool
  | [], _ => true
  | _ :: _, [] => false
  | a :: as, b :: bs =>
      if a.toNat < b.toNat then true
      else if b.toNat < a.toNat then false
      else charListLe as bs

/-- String comparison used for every SQL `ORDER BY` on text columns. -/
def strLe (a b : String) : Prop := charListLe a.data b.data = true

instance (a b : String) : Decidable (strLe a b) := by
  unfold strLe
  infer_instance

theorem charListLe_total : ∀ as bs : List Char, charListLe as bs = true ∨ charListLe bs as = true := by
  intro as
  induction as with
  | nil => intro bs; exact Or.inl rfl
  | cons a tl ih =>
      intro bs
      cases bs with
      | nil => exact Or.inr rfl
      | cons b bs =>
          simp only [charListLe]
          rcases Nat.lt_trichotomy a.toNat b.toNat with h | h | h
          · left
            simp [h]
          · have h1 : ¬ a.toNat < b.toNat := by omega
            have h2 : ¬ b.toNat < a.toNat := by omega
            simpa [h1, h2] using ih bs
          · right
            simp [h]

theorem charListLe_trans : ∀ as bs cs : List Char, charListLe as bs = true →
    charListLe bs cs = true → charListLe as cs = true := by
  intro as
  induction as with
  | nil => intro bs cs _ _; rfl
  | cons a tl ih =>
      intro bs cs hab hbc
      cases bs with
      | nil => exact absurd hab (by simp [charListLe])
      | cons b bs =>
          cases cs with
          | nil => exact absurd hbc (by simp [charListLe])
          | cons c cs =>
              simp only [charListLe] at hab hbc ⊢
              by_cases h1 : a.toNat < b.toNat
              · by_cases h2 : b.toNat < c.toNat
                · rw [if_pos (by omega : a.toNat < c.toNat)]
                · by_cases h3 : c.toNat < b.toNat
                  · rw [if_neg h2, if_pos h3] at hbc
                    exact absurd hbc (by simp)
                  · rw [if_pos (by omega : a.toNat < c.toNat)]
              · by_cases h4 : b.toNat < a.toNat
                · rw [if_neg h1, if_pos h4] at hab
                  exact absurd hab (by simp)
                · by_cases h2 : b.toNat < c.toNat
                  · rw [if_pos (by omega : a.toNat < c.toNat)]
                  · by_cases h3 : c.toNat < b.toNat
                    · rw [if_neg h2, if_pos h3] at hbc
                      exact absurd hbc (by simp)
                    · rw [if_neg h1, if_neg h4] at hab
                      rw [if_neg h2, if_neg h3] at hbc
                      rw [if_neg (by omega : ¬ a.toNat < c.toNat),
                        if_neg (by omega : ¬ c.toNat < a.toNat)]
                      exact ih bs cs hab hbc

theorem strLe_total (a b : String) : strLe a b ∨ strLe b a :=
  charListLe_total a.data b.data

theorem strLe_trans (a b c : String) (h1 : strLe a b) (h2 : strLe b c) : strLe a c :=
  charListLe_trans a.data b.data c.data h1 h2

/-- Comparison used by `ORDER BY name` on the category table. -/
def catNameLe (a b : CategoryRow) : Prop := strLe a.name b.name

instance : DecidableRel catNameLe := fun a b => by
  unfold catNameLe
  infer_instance

/-- `get_categories` (src/app.py lines 184-191): all categories
`ORDER BY name`. -/
def get_categories (db : DB) : List CategoryRow :=
  List.insertionSort catNameLe db.categories

/-- Python dict update `d[k] = v`: replace the value of an existing key in
place, else append the new binding at the end. -/
def setKv : List (String × Json) → String → Json → List (String × Json)
  | [], k, v => [(k, v)]
  | kv :: rest, k, v => if kv.1 = k then (k, v) :: rest else kv :: setKv rest k v

/-- Python dict construction from a sequence of bindings followed by lookup:
later bindings shadow earlier ones (`dict` comprehension semantics). -/
def dictGet {κ β : Type} [DecidableEq κ] : List (κ × β) → κ → Option β
  | [], _ => none
  | p :: rest, k =>
      match dictGet rest k with
      | some v => some v
      | none => if p.1 = k then some p.2 else none

/-- The `decrypted_data['id'] = question_id` step of the bulk readers
(src/app.py lines 211, 235).  The source would raise a `TypeError` on a
payload that is not a dictionary; such rows are excluded by the `StoredOk`
hypothesis wherever it matters, and the model returns `none` for them. -/
def attachId (qid : Int) : Json → Option Json
  | Json.obj kvs => some (Json.obj (setKv kvs "id" (Json.int qid)))
  | _ => none

/-- Decrypt one `questions` row and attach its row id; `none` models both a
decryption failure (row silently dropped by the source) and a non-dictionary
payload (excluded by `StoredOk`). -/
def rowToQuestion (r : QuestionRow) : Option Json :=
  match decrypt_data r.encrypted_data with
  | some j => attachId r.id j
  | none => none

/-- A decrypted payload is well-shaped when it either failed decryption (the
source drops the row) or is an object with pairwise-distinct keys (Python
dicts cannot hold duplicate keys, and `json.loads` collapses them). -/
def decOk : Option Json → Prop
  | none => True
  | some (Json.obj kvs) => (kvs.map Prod.fst).Nodup
  | some _ => False

instance (o : Option Json) : Decidable (decOk o) := by
  unfold decOk
  match o with
  | none => infer_instance
  | some (Json.obj kvs) => infer_instance
  | some Json.null => infer_instance
  | some (Json.bool _) => infer_instance
  | some (Json.int _) => infer_instance
  | some (Json.str _) => infer_instance
  | some (Json.arr _) => infer_instance

/-- Invariant: every stored ciphertext either fails decryption or decrypts to
a JSON object with distinct keys.  All write paths of the source store
`encrypt_data` of a dict, so every reachable state satisfies this; it rules
out the payloads on which the source's bulk readers would raise. -/
def StoredOk (db : DB) : Prop :=
  ∀ r ∈ db.questions, decOk (decrypt_data r.encrypted_data)

instance (db : DB) : Decidable (StoredOk db) := by
  unfold StoredOk
  infer_instance

/-- `get_questions_by_category` (src/app.py lines 193-214).  The SQL is
`SELECT id, encrypted_data FROM questions WHERE category_id = ? ORDER BY
RANDOM() LIMIT ?`; the nondeterministic `ORDER BY RANDOM()` is modelled by an
explicit `shuffle` argument, constrained to be a permutation in the theorems
that use it.  A `limit` of `none` models the Python default `limit=None`,
replaced by `QUIZ_CONFIG['default_question_limit']`. -/
def get_questions_by_category (db : DB) (category_id : Int) (limit : Option Nat)
    (shuffle : List QuestionRow → List QuestionRow) : List Json :=
  ((shuffle (db.questions.filter (fun r => r.category_id = category_id))).take
    (limit.getD default_question_limit)).filterMap rowToQuestion

/-- Comparison used by `ORDER BY id` on the questions table. -/
def qIdLe (a b : QuestionRow) : Prop := a.id ≤ b.id

instance : DecidableRel qIdLe := fun a b => by
  unfold qIdLe
  infer_instance

/-- `get_all_questions` (src/app.py lines 216-238).  Note the source guard is
`if category_id:` — Python truthiness — so both `None` and `0` select the
unfiltered branch. -/
def get_all_questions (db : DB) (category_id : Option Int) : List Json :=
  let rows :=
    if category_id.getD 0 ≠ 0 then
      db.questions.filter (fun r => r.category_id = category_id.getD 0)
    else db.questions
  (List.insertionSort qIdLe rows).filterMap rowToQuestion

/-- The plaintext record built by `add_question`/`update_question`
(src/app.py lines 243-249, 263-269). -/
def questionJson (category_id : Int) (question : String) (options : List String)
    (correct_answer : Int) (explanation : String) : Json :=
  Json.obj [("category_id", Json.int category_id), ("question", Json.str question),
            ("options", Json.arr (options.map Json.str)),
            ("correct_answer", Json.int correct_answer),
            ("explanation", Json.str explanation)]

/-- `add_question` (src/app.py lines 240-259). -/
def add_question (db : DB) (category_id : Int) (question : String) (options : List String)
    (correct_answer : Int) (explanation : String) : DB :=
  { db with
    questions := db.questions ++
      [⟨db.nextQuestionId, category_id,
        encrypt_data (questionJson category_id question options correct_answer explanation)⟩],
    nextQuestionId := db.nextQuestionId + 1 }

/-- `update_question` (src/app.py lines 261-279): full overwrite of the
ciphertext and category column of every row matching the id. -/
def update_question (db : DB) (question_id category_id : Int) (question : String)
    (options : List String) (correct_answer : Int) (explanation : String) : DB :=
  { db with
    questions := db.questions.map (fun r =>
      if r.id = question_id then
        ⟨r.id, category_id,
          encrypt_data (questionJson category_id question options correct_answer explanation)⟩
      else r) }

/-- `delete_question` (src/app.py lines 281-286). -/
def delete_question (db : DB) (question_id : Int) : DB :=
  { db with questions := db.questions.filter (fun r => ¬ r.id = question_id) }

/-- `save_score` (src/app.py lines 288-299): a `None` category is replaced by
the sentinel `QUIZ_CONFIG['all_categories_id']` before storage; no other
validation is performed. -/
def save_score (db : DB) (username : String) (category_id : Option Int)
    (score total_questions : Int) (completed_at : String) : DB :=
  let db_category_id := match category_id with
    | none => all_categories_id
    | some cid => cid
  { db with
    scores := db.scores ++
      [⟨db.nextScoreId, username, db_category_id, score, total_questions, completed_at⟩],
    nextScoreId := db.nextScoreId + 1 }

/-- `ROUND((score * 100.0 / total_questions), 1)` of the category-scoped
leaderboard query, over exact rationals (SQLite computes in floating point;
for the in-range scores of this application the two agree, and `round` here
is round-half-up, matching SQLite's round-half-away-from-zero on nonnegative
arguments).  SQLite yields NULL on division by zero; rows with
`total_questions = 0` are excluded by hypothesis where the distinction could
matter. -/
def roundedPercentage (score total : Int) : ℚ :=
  (round ((score * 1000 : ℚ) / total) : ℚ) / 10

/-- Round-half-up of `a / b` computed in integer arithmetic. -/
def roundHalfUp (a : Int) (b : Nat) : Int := (2 * a + (b : Int)) / ((2 * b : Nat) : Int)

/-- The rounded percentage in integer tenths of a percent: exactly
`10 * roundedPercentage` for positive totals (`percentageTenths_eq` below).
The integer form is kept because it is computable by kernel reduction, while
`ℚ` normalization is not. -/
def percentageTenths (score total : Int) : Int := roundHalfUp (score * 1000) total.toNat

theorem percentageTenths_eq (s t : Int) (ht : 0 < t) :
    (percentageTenths s t : ℚ) = 10 * roundedPercentage s t := by
  unfold percentageTenths roundHalfUp roundedPercentage
  have htn : (t.toNat : Int) = t := Int.toNat_of_nonneg ht.le
  have htq : (t : ℚ) ≠ 0 := by
    exact_mod_cast ht.ne'
  have hval : (s * 1000 : ℚ) / (t : ℚ) + 1 / 2
      = ((2 * (s * 1000) + (t.toNat : Int) : Int) : ℚ) / (((2 * t.toNat : Nat) : ℤ) : ℚ) := by
    push_cast [htn]
    field_simp
    ring
  rw [round_eq, hval]
  have hfloor := Rat.floor_intCast_div_natCast (2 * (s * 1000) + (t.toNat : Int)) (2 * t.toNat)
  push_cast at hfloor ⊢
  rw [hfloor]
  ring

/-- A result row of the category-scoped leaderboard query
(src/app.py lines 307-314).  `percentage_tenths` holds the `ROUND(...,1)`
value scaled by 10 so that it is an integer (see `percentageTenths_eq`). -/
structure CatLBRow where
  username : String
  score : Int
  total_questions : Int
  percentage_tenths : Int
  completed_at : String
  deriving DecidableEq, Repr

/-- Projection of a score row to a category-leaderboard result row. -/
def catRowOf (r : ScoreRow) : CatLBRow :=
  ⟨r.username, r.score, r.total_questions,
    percentageTenths r.score r.total_questions, r.completed_at⟩

/-- `ORDER BY percentage DESC, completed_at ASC` (on the integer tenths,
which orders identically to the rounded percentage). -/
def catLBOrder (a b : CatLBRow) : Prop :=
  b.percentage_tenths < a.percentage_tenths ∨
    (a.percentage_tenths = b.percentage_tenths ∧ strLe a.completed_at b.completed_at)

/-- The same order expressed through the spec-level rational
`roundedPercentage` of each row's stored score and total. -/
def catLBOrderQ (a b : CatLBRow) : Prop :=
  roundedPercentage b.score b.total_questions < roundedPercentage a.score a.total_questions ∨
    (roundedPercentage a.score a.total_questions = roundedPercentage b.score b.total_questions ∧
      strLe a.completed_at b.completed_at)

instance : DecidableRel catLBOrder := fun a b => by
  unfold catLBOrder
  infer_instance

instance : IsTotal CatLBRow catLBOrder := by
  constructor
  intro a b
  unfold catLBOrder
  rcases lt_trichotomy a.percentage_tenths b.percentage_tenths with h | h | h
  · exact Or.inr (Or.inl h)
  · rcases strLe_total a.completed_at b.completed_at with h2 | h2
    · exact Or.inl (Or.inr ⟨h, h2⟩)
    · exact Or.inr (Or.inr ⟨h.symm, h2⟩)
  · exact Or.inl (Or.inl h)

instance : IsTrans CatLBRow catLBOrder := by
  constructor
  intro a b c hab hbc
  unfold catLBOrder at hab hbc ⊢
  rcases hab with h1 | ⟨h1, h1t⟩
  · rcases hbc with h2 | ⟨h2, h2t⟩
    · exact Or.inl (h2.trans h1)
    · exact Or.inl (h2 ▸ h1)
  · rcases hbc with h2 | ⟨h2, h2t⟩
    · exact Or.inl (by rw [h1]; exact h2)
    · exact Or.inr ⟨h1.trans h2, strLe_trans _ _ _ h1t h2t⟩

/-- The category-scoped arm of `get_leaderboard` (src/app.py lines 301-314):
per-attempt rows of the given category, ordered by rounded percentage
descending with ties broken by earliest completion, truncated to `limit`. -/
def get_leaderboard_cat (db : DB) (category_id : Int) (limit : Nat) : List CatLBRow :=
  (List.insertionSort catLBOrder
    ((db.scores.filter (fun r => r.category_id = category_id)).map catRowOf)).take limit

/-- An exact, kernel-computable rational value `num / den`, used for the
`REAL` aggregates of the all-categories leaderboard (`ℚ`'s gcd-normalizing
arithmetic does not reduce in the kernel).  `ratOf` gives its value. -/
structure SqlReal where
  num : Int
  den : Int
  deriving DecidableEq, Repr

/-- The rational value of a `SqlReal`. -/
def ratOf (x : SqlReal) : ℚ := (x.num : ℚ) / (x.den : ℚ)

/-- Exact addition of fractions without normalization. -/
def sqlAdd (x y : SqlReal) : SqlReal := ⟨x.num * y.den + y.num * x.den, x.den * y.den⟩

/-- The zero fraction. -/
def sqlZero : SqlReal := ⟨0, 1⟩

/-- Strict comparison by cross-multiplication; agrees with the comparison of
the real values whenever both denominators are positive, which holds for
every group built from rows with positive `total_questions`. -/
def sqlLt (x y : SqlReal) : Prop := x.num * y.den < y.num * x.den

/-- Equality by cross-multiplication (same proviso as `sqlLt`). -/
def sqlEqv (x y : SqlReal) : Prop := x.num * y.den = y.num * x.den

theorem ratOf_sqlAdd (x y : SqlReal) (hx : (x.den : ℚ) ≠ 0) (hy : (y.den : ℚ) ≠ 0) :
    ratOf (sqlAdd x y) = ratOf x + ratOf y := by
  unfold ratOf sqlAdd
  push_cast
  field_simp

theorem sqlLt_iff (x y : SqlReal) (hx : (0 : Int) < x.den) (hy : (0 : Int) < y.den) :
    sqlLt x y ↔ ratOf x < ratOf y := by
  unfold sqlLt ratOf
  have hx2 : (0 : ℚ) < (x.den : ℚ) := by exact_mod_cast hx
  have hy2 : (0 : ℚ) < (y.den : ℚ) := by exact_mod_cast hy
  rw [div_lt_div_iff₀ hx2 hy2]
  constructor
  · intro h
    exact_mod_cast h
  · intro h
    exact_mod_cast h

/-- A result row of the all-categories leaderboard query
(src/app.py lines 315-323).  `avg_percentage` is the exact value of
`AVG(score * 100.0 / total_questions)` as a fraction (`ratOf_avgPercentage`
connects it to the arithmetic mean). -/
structure AllLBRow where
  username : String
  avg_percentage : SqlReal
  quizzes_taken : Nat
  last_quiz : String
  deriving DecidableEq, Repr

/-- The score rows of one user (the `GROUP BY username` group). -/
def userScores (db : DB) (u : String) : List ScoreRow :=
  db.scores.filter (fun r => r.username = u)

/-- One row's summand `score * 100.0 / total_questions`. -/
def rowPct (r : ScoreRow) : SqlReal := ⟨r.score * 100, r.total_questions⟩

/-- `AVG(score * 100.0 / total_questions)` over a group, as an exact
fraction. -/
def avgPercentage (rows : List ScoreRow) : SqlReal :=
  ⟨((rows.map rowPct).foldl sqlAdd sqlZero).num,
    ((rows.map rowPct).foldl sqlAdd sqlZero).den * rows.length⟩

/-- The arithmetic mean of the per-attempt percentages, exactly as the spec
phrases it. -/
def meanPercentage (rows : List ScoreRow) : ℚ :=
  (rows.map (fun r => (r.score * 100 : ℚ) / r.total_questions)).sum / rows.length

theorem foldl_sqlAdd_den (l : List SqlReal) (acc : SqlReal) :
    (l.foldl sqlAdd acc).den = acc.den * (l.map SqlReal.den).prod := by
  induction l generalizing acc with
  | nil => simp
  | cons x tl ih =>
      rw [List.foldl_cons, ih, List.map_cons, List.prod_cons]
      show (sqlAdd acc x).den * (List.map SqlReal.den tl).prod = _
      unfold sqlAdd
      ring

theorem ratOf_foldl_sqlAdd (l : List SqlReal) (acc : SqlReal)
    (hacc : acc.den ≠ 0) (hl : ∀ x ∈ l, x.den ≠ 0) :
    ratOf (l.foldl sqlAdd acc) = ratOf acc + (l.map ratOf).sum := by
  induction l generalizing acc with
  | nil => simp
  | cons x tl ih =>
      have hx : x.den ≠ 0 := hl x (List.mem_cons_self x tl)
      have hadd : (sqlAdd acc x).den ≠ 0 := by
        unfold sqlAdd
        exact mul_ne_zero hacc hx
      rw [List.foldl_cons, ih (sqlAdd acc x) hadd (fun y hy => hl y (List.mem_cons_of_mem _ hy)),
        ratOf_sqlAdd acc x (by exact_mod_cast hacc) (by exact_mod_cast hx),
        List.map_cons, List.sum_cons]
      ring

theorem ratOf_avgPercentage (rows : List ScoreRow)
    (h : ∀ r ∈ rows, 0 < r.total_questions) :
    ratOf (avgPercentage rows) = meanPercentage rows := by
  have hdens : ∀ x ∈ rows.map rowPct, x.den ≠ 0 := by
    intro x hx
    rcases List.mem_map.mp hx with ⟨r, hr, hxr⟩
    subst hxr
    exact (h r hr).ne'
  have hsum := ratOf_foldl_sqlAdd (rows.map rowPct) sqlZero (by norm_num [sqlZero]) hdens
  have hvals : (rows.map rowPct).map ratOf
      = rows.map (fun r => (r.score * 100 : ℚ) / r.total_questions) := by
    rw [List.map_map]
    apply List.map_congr_left
    intro r hr
    unfold Function.comp rowPct ratOf
    push_cast
    ring_nf
  have hS : (((rows.map rowPct).foldl sqlAdd sqlZero).num : ℚ)
      / (((rows.map rowPct).foldl sqlAdd sqlZero).den : ℚ)
      = (rows.map (fun r => (r.score * 100 : ℚ) / r.total_questions)).sum := by
    rw [hvals] at hsum
    simpa [ratOf, sqlZero] using hsum
  unfold avgPercentage meanPercentage
  unfold ratOf
  push_cast
  rw [div_mul_eq_div_div, hS]

/-- Maximum of two strings in the `strLe` order. -/
def strMax (a b : String) : String := if strLe a b then b else a

/-- `MAX(completed_at)` over a group (groups are nonempty, so the `""` seed
never survives). -/
def maxCompleted (rows : List ScoreRow) : String :=
  rows.foldl (fun acc r => strMax acc r.completed_at) ""

/-- The aggregated row of one username. -/
def allRowOf (db : DB) (u : String) : AllLBRow :=
  ⟨u, avgPercentage (userScores db u), (userScores db u).length,
    maxCompleted (userScores db u)⟩

/-- `ORDER BY avg_percentage DESC, last_quiz ASC` (cross-multiplied
comparison; identical to comparison of the real averages for rows with
positive totals). -/
def allLBOrder (a b : AllLBRow) : Prop :=
  sqlLt b.avg_percentage a.avg_percentage ∨
    (sqlEqv a.avg_percentage b.avg_percentage ∧ strLe a.last_quiz b.last_quiz)

instance : DecidableRel allLBOrder := fun a b => by
  unfold allLBOrder sqlLt sqlEqv
  infer_instance

/-- The all-categories arm of `get_leaderboard` (src/app.py lines 315-323):
one aggregated row per distinct username, ordered by average percentage
descending then earliest last quiz, truncated to `limit` (default 20). -/
def get_leaderboard_all (db : DB) (limit : Nat) : List AllLBRow :=
  (List.insertionSort allLBOrder
    ((db.scores.map (fun r => r.username)).dedup.map (allRowOf db))).take limit

/-! ### CSV import/export

CSV text is modelled at the row level: a CSV file with the fixed header of
§4.4 becomes a list of row records (the `csv` module round-trips cell strings
faithfully, so cell-level quoting is outside the model).  Functions return
`none` exactly where the source would raise out of the modelled domain. -/

/-- Python `str.strip` whitespace set (ASCII; the claims only use ASCII). -/
def isPySpace (c : Char) : Bool :=
  c = ' ' || c = '\t' || c = '\n' || c = '\r' || c = '\x0b' || c = '\x0c'

/-- Python `str.strip()`. -/
def pyStrip (s : String) : String :=
  ⟨((s.data.dropWhile isPySpace).reverse.dropWhile isPySpace).reverse⟩

/-- Python `str.upper()` (ASCII letters; the claims only use ASCII). -/
def pyUpper (s : String) : String := ⟨s.data.map Char.toUpper⟩

/-- Value of a nonempty all-digit string. -/
def digitsVal (ds : List Char) : Nat :=
  ds.foldl (fun acc c => acc * 10 + (c.toNat - 48)) 0

/-- Helper for `pyInt`: parse an unsigned decimal numeral. -/
def pyIntCore (ds : List Char) : Option Int :=
  if ds ≠ [] ∧ ds.all Char.isDigit then some (digitsVal ds) else none

/-- Python `int(...)` on a stripped string: optional sign and decimal digits;
anything else raises `ValueError` (`none`).  Python's underscore digit
grouping is not used by any claim and is outside the model. -/
def pyInt (s : String) : Option Int :=
  match s.data with
  | '-' :: ds => (pyIntCore ds).map (fun n => -n)
  | '+' :: ds => pyIntCore ds
  | ds => pyIntCore ds

/-- The `LEFT JOIN quiz_categories` plus `category if category else
'All Categories'` rendering of `export_leaderboard_to_csv`
(src/app.py lines 396-415): a score row whose `category_id` matches no
category (in particular the sentinel 0) renders as `"All Categories"`, as
does an empty category name (Python truthiness). -/
def joinCategoryName (db : DB) (cid : Int) : String :=
  match db.categories.find? (fun c => c.id = cid) with
  | some c => if c.name = "" then "All Categories" else c.name
  | none => "All Categories"

/-- A row of the exported leaderboard CSV.  The source formats the
percentage cell as `f"{percentage}%"`; the numeric value is kept and the
textual formatting elided. -/
structure LeaderboardCsvRow where
  username : String
  category : String
  score : Int
  total_questions : Int
  percentage : ℚ
  completed_at : String
  deriving DecidableEq, Repr

/-- `ORDER BY us.completed_at DESC`. -/
def lbExportOrder (a b : ScoreRow) : Prop := strLe b.completed_at a.completed_at

instance : DecidableRel lbExportOrder := fun a b => by
  unfold lbExportOrder
  infer_instance

/-- `export_leaderboard_to_csv` (src/app.py lines 392-420). -/
def export_leaderboard_to_csv (db : DB) : List LeaderboardCsvRow :=
  (List.insertionSort lbExportOrder db.scores).map (fun r =>
    ⟨r.username, joinCategoryName db r.category_id, r.score, r.total_questions,
      roundedPercentage r.score r.total_questions, r.completed_at⟩)

/-- A row of the questions CSV (fixed 8-column schema, src/app.py
lines 369-372). -/
structure QuestionCsvRow where
  category : String
  question : String
  optionA : String
  optionB : String
  optionC : String
  optionD : String
  correctAnswer : String
  explanation : String
  deriving DecidableEq, Repr

/-- The `csv` writer's cell conversion `str(value)` for the JSON scalars the
application stores; container values (which only arise outside every write
path of the source) are out of the modelled domain. -/
def cellString : Json → Option String
  | Json.str s => some s
  | Json.int n => some (toString n)
  | Json.bool true => some "True"
  | Json.bool false => some "False"
  | Json.null => some ""
  | _ => none

/-- `category_map.get(q['category_id'], 'Unknown')` of
`export_questions_to_csv` (src/app.py lines 362-376), with the dict built
from `get_categories` (later duplicate ids shadow earlier ones, mirroring
dict comprehension semantics). -/
def categoryNameOf (db : DB) (cidJ : Json) : String :=
  match cidJ with
  | Json.int n =>
      match dictGet ((get_categories db).map (fun c => (c.id, c.name))) n with
      | some name => name
      | none => "Unknown"
  | _ => "Unknown"

/-- `chr(64 + correct_answer)` (src/app.py line 377); `none` models the
`TypeError`/`ValueError` the source would raise outside `chr`'s domain
(Lean's `Char` additionally excludes surrogates, which `chr` accepts — the
difference is unreachable from any claim). -/
def chrLetter (ca : Int) : Option Char :=
  if 0 ≤ 64 + ca ∧ Nat.isValidChar (64 + ca).toNat then
    some (Char.ofNat (64 + ca).toNat)
  else none

/-- View of a JSON value as a list (`q['options'][k]` indexing). -/
def asArr : Json → Option (List Json)
  | Json.arr xs => some xs
  | _ => none

/-- View of a JSON value as an integer (`chr(64 + ...)` needs an int). -/
def asInt : Json → Option Int
  | Json.int n => some n
  | _ => none

/-- One written row of `export_questions_to_csv` (src/app.py lines 374-388);
`none` where the source would raise (missing key, short option list,
non-scalar cell, `chr` failure). -/
def exportRow (db : DB) (q : Json) : Option QuestionCsvRow :=
  match q with
  | Json.obj kvs =>
      (dictGet kvs "category_id").bind fun cidJ =>
      ((dictGet kvs "question").bind cellString).bind fun qcell =>
      ((dictGet kvs "options").bind asArr).bind fun opts =>
      ((opts.get? 0).bind cellString).bind fun oA =>
      ((opts.get? 1).bind cellString).bind fun oB =>
      ((opts.get? 2).bind cellString).bind fun oC =>
      ((opts.get? 3).bind cellString).bind fun oD =>
      ((dictGet kvs "correct_answer").bind asInt).bind fun ca =>
      (chrLetter ca).bind fun letter =>
      (cellString ((dictGet kvs "explanation").getD (Json.str ""))).bind fun ecell =>
      some ⟨categoryNameOf db cidJ, qcell, oA, oB, oC, oD, String.mk [letter], ecell⟩
  | _ => none

/-- `export_questions_to_csv` (src/app.py lines 359-390): one CSV row per
question returned by `get_all_questions`, in that order. -/
def export_questions_to_csv (db : DB) : Option (List QuestionCsvRow) :=
  (get_all_questions db none).mapM (exportRow db)

/-- Errors collected by the required-field loop of both importers
(src/app.py lines 442-448, 526-532): one `Missing` message per empty field,
in field order; a row with any such message is skipped. -/
def missingErrors (rowNum : Nat) (fields : List (String × String)) : List String :=
  (fields.filter (fun p => pyStrip p.2 = "")).map
    (fun p => "Row " ++ toString rowNum ++ ": Missing " ++ p.1)

/-- A row of the leaderboard CSV as read by `csv.DictReader` (the unused
`Percentage` column is dropped; an absent column reads as the empty
string). -/
structure ScoreCsvRow where
  username : String
  category : String
  score : String
  totalQuestions : String
  completedAt : String
  deriving DecidableEq, Repr

/-- The required fields of a leaderboard CSV row, in validation order
(src/app.py line 440). -/
def sRequired (r : ScoreCsvRow) : List (String × String) :=
  [("Username", r.username), ("Category", r.category), ("Score", r.score),
   ("Total Questions", r.totalQuestions)]

/-- The category name → id dict of `import_leaderboard_from_csv`
(src/app.py lines 430-432): existing categories plus the
`'All Categories' ↦ 0` binding added last (shadowing any category of that
name). -/
def scoreCatMap (db : DB) : List (String × Int) :=
  (get_categories db).map (fun c => (c.name, c.id)) ++ [("All Categories", all_categories_id)]

/-- Processing of one leaderboard CSV row (src/app.py lines 437-492),
returning the updated database, the increment to `imported_count` and the
errors contributed by this row.  The `Invalid number format` message elides
the interpolated exception text. -/
def importSStep (db : DB) (cmap : List (String × Int)) (rowNum : Nat) (now : String)
    (r : ScoreCsvRow) : DB × Nat × List String :=
  let missing := missingErrors rowNum (sRequired r)
  if missing ≠ [] then (db, 0, missing)
  else
    match pyInt (pyStrip r.score), pyInt (pyStrip r.totalQuestions) with
    | some score, some total =>
        if score < 0 ∨ total < score then
          (db, 0, ["Row " ++ toString rowNum ++ ": Invalid score " ++ toString score ++ "/" ++
            toString total])
        else
          match dictGet cmap (pyStrip r.category) with
          | none =>
              (db, 0, ["Row " ++ toString rowNum ++ ": Unknown category '" ++
                pyStrip r.category ++ "'"])
          | some category_id =>
              let completed := pyStrip r.completedAt
              let ts := if completed = "" then now else completed
              ({ db with
                  scores := db.scores ++
                    [⟨db.nextScoreId, pyStrip r.username, category_id, score, total, ts⟩],
                  nextScoreId := db.nextScoreId + 1 }, 1, [])
    | _, _ => (db, 0, ["Row " ++ toString rowNum ++ ": Invalid number format"])

/-- The row loop of `import_leaderboard_from_csv`. -/
def importSRows : DB → List (String × Int) → Nat → String → List ScoreCsvRow →
    DB × Nat × List String
  | db, _, _, _, [] => (db, 0, [])
  | db, cmap, rowNum, now, r :: rs =>
      let s := importSStep db cmap rowNum now r
      let rest := importSRows s.1 cmap (rowNum + 1) now rs
      (rest.1, s.2.1 + rest.2.1, s.2.2 ++ rest.2.2)

/-- `import_leaderboard_from_csv` (src/app.py lines 422-505): returns the
final database, `imported_count` and the collected row errors (the
`success` flag and the top-level CSV parse failure are outside the row-level
model). -/
def import_leaderboard_from_csv (db : DB) (rows : List ScoreCsvRow) (now : String) :
    DB × Nat × List String :=
  importSRows db (scoreCatMap db) 2 now rows

/-- The required fields of a questions CSV row, in validation order
(src/app.py line 524). -/
def qRequired (r : QuestionCsvRow) : List (String × String) :=
  [("Category", r.category), ("Question", r.question), ("Option A", r.optionA),
   ("Option B", r.optionB), ("Option C", r.optionC), ("Option D", r.optionD),
   ("Correct Answer", r.correctAnswer)]

/-- `ord(correct_answer) - ord('A') + 1` for a single-letter string
(src/app.py line 556; only reached after membership in A-D). -/
def letterIdx (s : String) : Int :=
  match s.data with
  | [c] => (c.toNat : Int) - 65 + 1
  | _ => 0

/-- The accepted correct-answer letters (src/app.py line 551). -/
def validLetters : List String := ["A", "B", "C", "D"]

/-- Processing of one questions CSV row (src/app.py lines 521-578):
missing-field check, then category resolution or creation, then
correct-answer validation, then insertion.  Note the category is created
before the correct answer is checked. -/
def importQStep (db : DB) (cmap : List (String × Int)) (rowNum : Nat) (r : QuestionCsvRow) :
    DB × List (String × Int) × Nat × List String :=
  let missing := missingErrors rowNum (qRequired r)
  if missing ≠ [] then (db, cmap, 0, missing)
  else
    let category_name := pyStrip r.category
    let created :=
      match dictGet cmap category_name with
      | some cid => (db, cmap, cid)
      | none =>
          ({ db with
              categories := db.categories ++
                [(⟨db.nextCategoryId, category_name,
                  "Imported category: " ++ category_name⟩ : CategoryRow)],
              nextCategoryId := db.nextCategoryId + 1 },
            cmap ++ [(category_name, db.nextCategoryId)], db.nextCategoryId)
    let db1 := created.1
    let cmap1 := created.2.1
    let category_id := created.2.2
    let ca := pyUpper (pyStrip r.correctAnswer)
    if ca ∉ validLetters then
      (db1, cmap1, 0,
        ["Row " ++ toString rowNum ++ ": Invalid correct answer '" ++ ca ++
          "'. Must be A, B, C, or D"])
    else
      (add_question db1 category_id (pyStrip r.question)
        [pyStrip r.optionA, pyStrip r.optionB, pyStrip r.optionC, pyStrip r.optionD]
        (letterIdx ca) (pyStrip r.explanation),
       cmap1, 1, [])

/-- The row loop of `import_questions_from_csv` (threads the growing
category dict). -/
def importQRows : DB → List (String × Int) → Nat → List QuestionCsvRow →
    DB × Nat × List String
  | db, _, _, [] => (db, 0, [])
  | db, cmap, rowNum, r :: rs =>
      let s := importQStep db cmap rowNum r
      let rest := importQRows s.1 s.2.1 (rowNum + 1) rs
      (rest.1, s.2.2.1 + rest.2.1, s.2.2.2 ++ rest.2.2)

/-- The initial category dict of `import_questions_from_csv`
(src/app.py lines 515-516). -/
def initialQCatMap (db : DB) : List (String × Int) :=
  (get_categories db).map (fun c => (c.name, c.id))

/-- `import_questions_from_csv` (src/app.py lines 507-592): returns the final
database, `imported_count` and the collected row errors. -/
def import_questions_from_csv (db : DB) (rows : List QuestionCsvRow) :
    DB × Nat × List String :=
  importQRows db (initialQCatMap db) 2 rows

/-- The "clear the question table" step of the export/import round-trip
scenario of C6 (repeated `delete_question` over every stored id). -/
def clearQuestions (db : DB) : DB := { db with questions := [] }

/-- Reachability invariant for C4: every category id is at least 1 (SQLite
`AUTOINCREMENT` starts at 1), so the sentinel 0 can never collide. -/
def CatIdsPos (db : DB) : Prop :=
  (∀ c ∈ db.categories, 1 ≤ c.id) ∧ 1 ≤ db.nextCategoryId

instance (db : DB) : Decidable (CatIdsPos db) := by
  unfold CatIdsPos
  infer_instance

/-! ### Shared lemmas about the model -/

theorem dictGet_eq_none_of_not_mem {κ β : Type} [DecidableEq κ] (m : List (κ × β)) (k : κ)
    (h : k ∉ m.map Prod.fst) : dictGet m k = none := by
  induction m with
  | nil => rfl
  | cons p rest ih =>
      simp only [List.map_cons, List.mem_cons] at h
      push_neg at h
      simp only [dictGet, ih h.2]
      rw [if_neg (fun hk => h.1 hk.symm)]

theorem dictGet_setKv_self (kvs : List (String × Json)) (k : String) (v : Json)
    (h : (kvs.map Prod.fst).Nodup) : dictGet (setKv kvs k v) k = some v := by
  induction kvs with
  | nil => simp [setKv, dictGet]
  | cons kv rest ih =>
      simp only [List.map_cons, List.nodup_cons] at h
      by_cases hk : kv.1 = k
      · simp only [setKv, if_pos hk]
        have hmem : k ∉ rest.map Prod.fst := hk ▸ h.1
        simp [dictGet, dictGet_eq_none_of_not_mem rest k hmem]
      · simp only [setKv, if_neg hk]
        simp [dictGet, ih h.2]

theorem dictGet_setKv_ne (kvs : List (String × Json)) (k k2 : String) (v : Json)
    (hne : k2 ≠ k) : dictGet (setKv kvs k v) k2 = dictGet kvs k2 := by
  have hkk : ¬ k = k2 := fun h => hne h.symm
  induction kvs with
  | nil => simp [setKv, dictGet, hkk]
  | cons kv rest ih =>
      by_cases hk : kv.1 = k
      · simp only [setKv, if_pos hk, dictGet]
        rw [if_neg (fun h : k = k2 => hne h.symm), if_neg (fun h : kv.1 = k2 => hne (hk ▸ h).symm)]
      · simp only [setKv, if_neg hk, dictGet, ih]

/-- The row id the bulk readers attach into the decrypted dict
(`decrypted_data['id']`). -/
def attachedId : Json → Option Int
  | Json.obj kvs =>
      match dictGet kvs "id" with
      | some (Json.int n) => some n
      | _ => none
  | _ => none

theorem rowToQuestion_attachedId (r : QuestionRow) (j : Json)
    (hok : decOk (decrypt_data r.encrypted_data)) (h : rowToQuestion r = some j) :
    attachedId j = some r.id := by
  unfold rowToQuestion at h
  cases hd : decrypt_data r.encrypted_data with
  | none => rw [hd] at h; exact absurd h (by simp)
  | some x =>
      rw [hd] at h hok
      cases x with
      | obj kvs =>
          simp only [attachId] at h
          have hj : j = Json.obj (setKv kvs "id" (Json.int r.id)) := (Option.some_inj.mp h).symm
          subst hj
          have hnd : (kvs.map Prod.fst).Nodup := hok
          simp only [attachedId, dictGet_setKv_self kvs "id" (Json.int r.id) hnd]
      | null => exact absurd hok (by simp [decOk])
      | bool b => exact absurd hok (by simp [decOk])
      | int n => exact absurd hok (by simp [decOk])
      | str s => exact absurd hok (by simp [decOk])
      | arr xs => exact absurd hok (by simp [decOk])

theorem pairwise_filterMap_mem {α β : Type} (f : α → Option β) (R : α → α → Prop)
    (S : β → β → Prop) (l : List α) (hp : List.Pairwise R l)
    (H : ∀ a ∈ l, ∀ b ∈ l, R a b → ∀ x, f a = some x → ∀ y, f b = some y → S x y) :
    List.Pairwise S (l.filterMap f) := by
  induction l with
  | nil => simp
  | cons a tl ih =>
      rcases List.pairwise_cons.mp hp with ⟨ha, htl⟩
      have Htl : ∀ a2 ∈ tl, ∀ b ∈ tl, R a2 b → ∀ x, f a2 = some x → ∀ y, f b = some y → S x y :=
        fun a2 ha2 b hb => H a2 (List.mem_cons_of_mem _ ha2) b (List.mem_cons_of_mem _ hb)
      cases hfa : f a with
      | none => simpa [List.filterMap_cons, hfa] using ih htl Htl
      | some x =>
          simp only [List.filterMap_cons, hfa]
          refine List.pairwise_cons.mpr ⟨?_, ih htl Htl⟩
          intro y hy
          rcases List.mem_filterMap.mp hy with ⟨b, hb, hfb⟩
          exact H a (List.mem_cons_self a tl) b (List.mem_cons_of_mem _ hb) (ha b hb) x hfa y hfb

instance : IsTotal QuestionRow qIdLe := by
  constructor
  intro a b
  unfold qIdLe
  exact le_total a.id b.id

instance : IsTrans QuestionRow qIdLe := by
  constructor
  intro a b c hab hbc
  exact le_trans hab hbc

/-! ### C9 -/

/-- A database on which the truthiness of `if category_id:` is observable:
one category (id 1) with one decryptable question. -/
def dbTruthy : DB :=
  ⟨[⟨1, "Cat", "d"⟩],
   [⟨1, 1, encrypt_data (questionJson 1 "Q" ["a", "b", "c", "d"] 1 "")⟩],
   [], 2, 2, 1⟩

set_option maxRecDepth 40000 in
/-- C9 counterexample: supplying the category id 0 (falsy in Python, so
`if category_id:` selects the unfiltered branch) returns a question whose
`category_id` column is 1 — not "exactly the decryptable questions whose
`category_id` column equals that id". -/
theorem c9_counterexample :
    dbTruthy.questions.filter (fun r => r.category_id = (0 : Int)) = [] ∧
    get_all_questions dbTruthy (some 0) ≠ [] := by
  constructor
  · rfl
  · decide

/-- C9 amended: for every nonzero supplied category id, `get_all_questions`
returns exactly the decryptable questions of that category (each with its
row id attached), ordered by ascending id and unbounded; with no category id
it returns all decryptable questions; and the supplied id 0 — falsy in
Python — behaves exactly like supplying no id at all. -/
theorem c9_get_all_questions_contract (db : DB) (cid : Int) (j0 : Json) (hcid : cid ≠ 0)
    (hok : StoredOk db) :
    (j0 ∈ get_all_questions db (some cid) ↔
      ∃ r ∈ db.questions, r.category_id = cid ∧ rowToQuestion r = some j0) ∧
    List.Pairwise (fun a b => (attachedId a).getD 0 ≤ (attachedId b).getD 0)
      (get_all_questions db (some cid)) ∧
    (j0 ∈ get_all_questions db none ↔ ∃ r ∈ db.questions, rowToQuestion r = some j0) ∧
    get_all_questions db (some 0) = get_all_questions db none := by
  refine ⟨?_, ?_, ?_, rfl⟩
  · simp only [get_all_questions, Option.getD, if_pos hcid, List.mem_filterMap,
      List.mem_insertionSort, List.mem_filter, decide_eq_true_eq]
    constructor
    · rintro ⟨r, ⟨hr, hcat⟩, hq⟩
      exact ⟨r, hr, hcat, hq⟩
    · rintro ⟨r, hr, hcat, hq⟩
      exact ⟨r, ⟨hr, hcat⟩, hq⟩
  · have hrows : List.Sorted qIdLe
        (List.insertionSort qIdLe (db.questions.filter (fun r => r.category_id = cid))) :=
      List.sorted_insertionSort qIdLe _
    have hmem : ∀ a ∈ List.insertionSort qIdLe
        (db.questions.filter (fun r => r.category_id = cid)), a ∈ db.questions := by
      intro a haa
      rw [List.mem_insertionSort] at haa
      exact (List.mem_filter.mp haa).1
    have hpair := pairwise_filterMap_mem rowToQuestion qIdLe
      (fun a b => (attachedId a).getD 0 ≤ (attachedId b).getD 0) _ hrows ?_
    · simpa only [get_all_questions, Option.getD, if_pos hcid] using hpair
    · intro a haa b hbb hab x hx y hy
      rw [rowToQuestion_attachedId a x (hok a (hmem a haa)) hx,
        rowToQuestion_attachedId b y (hok b (hmem b hbb)) hy]
      exact hab
  · simp only [get_all_questions, Option.getD, if_neg (by omega : ¬ (0 : Int) ≠ 0),
      List.mem_filterMap, List.mem_insertionSort]

/-- The decrypted question of `dbTruthy` with its row id attached. -/
def qTruthy : Json :=
  Json.obj [("category_id", Json.int 1), ("question", Json.str "Q"),
    ("options", Json.arr [Json.str "a", Json.str "b", Json.str "c", Json.str "d"]),
    ("correct_answer", Json.int 1), ("explanation", Json.str ""), ("id", Json.int 1)]

set_option maxRecDepth 40000 in
/-- Witness for C9's amended contract at a concrete database and id. -/
theorem c9_get_all_questions_contract_witness :
    (qTruthy ∈ get_all_questions dbTruthy (some 1) ↔
      ∃ r ∈ dbTruthy.questions, r.category_id = 1 ∧ rowToQuestion r = some qTruthy) ∧
    List.Pairwise (fun a b => (attachedId a).getD 0 ≤ (attachedId b).getD 0)
      (get_all_questions dbTruthy (some 1)) ∧
    (qTruthy ∈ get_all_questions dbTruthy none ↔
      ∃ r ∈ dbTruthy.questions, rowToQuestion r = some qTruthy) ∧
    get_all_questions dbTruthy (some 0) = get_all_questions dbTruthy none :=
  c9_get_all_questions_contract dbTruthy 1 qTruthy (by decide) (by decide)

/-! ### C4 -/

theorem catIdsPos_iff_of_eq (a b : DB) (h1 : a.categories = b.categories)
    (h2 : a.nextCategoryId = b.nextCategoryId) : CatIdsPos a ↔ CatIdsPos b := by
  unfold CatIdsPos
  rw [h1, h2]

theorem catIdsPos_insertCategory (db : DB) (n d : String) (h : CatIdsPos db) :
    CatIdsPos (insertCategory db n d) := by
  obtain ⟨h1, h2⟩ := h
  constructor
  · intro c hc
    simp only [insertCategory, List.mem_append, List.mem_singleton] at hc
    rcases hc with hc | hc
    · exact h1 c hc
    · subst hc
      exact h2
  · simp only [insertCategory]
    omega

theorem catIdsPos_foldl_insert (l : List (String × String)) (db : DB) (h : CatIdsPos db) :
    CatIdsPos (l.foldl (fun d p => insertCategory d p.1 p.2) db) := by
  induction l generalizing db with
  | nil => exact h
  | cons p tl ih => exact ih _ (catIdsPos_insertCategory db p.1 p.2 h)

theorem catIdsPos_init_database (db : DB) (h : CatIdsPos db) :
    CatIdsPos (init_database db) := by
  unfold init_database
  split
  · exact catIdsPos_foldl_insert default_categories db h
  · exact h

theorem catIdsPos_add_question (db : DB) (cid : Int) (q : String) (o : List String)
    (ca : Int) (e : String) (h : CatIdsPos db) :
    CatIdsPos (add_question db cid q o ca e) := by
  rwa [catIdsPos_iff_of_eq (add_question db cid q o ca e) db rfl rfl]

theorem importSStep_categories (db : DB) (cmap : List (String × Int)) (n : Nat) (now : String)
    (r : ScoreCsvRow) :
    (importSStep db cmap n now r).1.categories = db.categories ∧
    (importSStep db cmap n now r).1.nextCategoryId = db.nextCategoryId := by
  unfold importSStep
  dsimp only
  repeat' split
  all_goals exact ⟨rfl, rfl⟩

theorem catIdsPos_importSRows (rows : List ScoreCsvRow) (db : DB)
    (cmap : List (String × Int)) (n : Nat) (now : String) (h : CatIdsPos db) :
    CatIdsPos (importSRows db cmap n now rows).1 := by
  induction rows generalizing db n with
  | nil => exact h
  | cons r rs ih =>
      have hstep := importSStep_categories db cmap n now r
      exact ih (importSStep db cmap n now r).1 (n + 1)
        ((catIdsPos_iff_of_eq _ db hstep.1 hstep.2).mpr h)

theorem catIdsPos_importQStep (db : DB) (cmap : List (String × Int)) (n : Nat)
    (r : QuestionCsvRow) (h : CatIdsPos db) :
    CatIdsPos (importQStep db cmap n r).1 := by
  unfold importQStep
  dsimp only
  split
  · exact h
  · split <;> split
    all_goals first
      | exact h
      | exact catIdsPos_insertCategory db _ _ h

theorem catIdsPos_importQRows (rows : List QuestionCsvRow) (db : DB)
    (cmap : List (String × Int)) (n : Nat) (h : CatIdsPos db) :
    CatIdsPos (importQRows db cmap n rows).1 := by
  induction rows generalizing db cmap n with
  | nil => exact h
  | cons r rs ih =>
      exact ih (importQStep db cmap n r).1 (importQStep db cmap n r).2.1 (n + 1)
        (catIdsPos_importQStep db cmap n r h)

/-- C4: `save_score` with a `None` category stores the reserved sentinel 0 in
the `category_id` column; the invariant "all real category ids are at least
1" holds of the seeded database and is preserved by every category-creating
operation (seeding and questions-CSV import; no other operation touches the
category table), so under it no category row carries the sentinel id and the
`LEFT JOIN` rendering of a sentinel score row is `"All Categories"`, never a
real category. -/
theorem c4_sentinel_never_a_real_category (db : DB) (username q e now ts : String)
    (score total cid2 : Int) (cid : Option Int) (opts : List String)
    (qrows : List QuestionCsvRow) (srows : List ScoreCsvRow) (h : CatIdsPos db) :
    (save_score db username none score total ts).scores
      = db.scores ++ [⟨db.nextScoreId, username, all_categories_id, score, total, ts⟩] ∧
    all_categories_id = 0 ∧
    CatIdsPos emptyDB ∧
    CatIdsPos (init_database db) ∧
    CatIdsPos (save_score db username cid score total ts) ∧
    CatIdsPos (add_question db cid2 q opts score e) ∧
    CatIdsPos (import_leaderboard_from_csv db srows now).1 ∧
    CatIdsPos (import_questions_from_csv db qrows).1 ∧
    (∀ c ∈ db.categories, c.id ≠ all_categories_id) ∧
    joinCategoryName db all_categories_id = "All Categories" := by
  refine ⟨rfl, rfl, by decide, catIdsPos_init_database db h, ?_, ?_, ?_, ?_, ?_, ?_⟩
  · exact (catIdsPos_iff_of_eq _ db rfl rfl).mpr h
  · exact catIdsPos_add_question db cid2 q opts score e h
  · exact catIdsPos_importSRows srows db (scoreCatMap db) 2 now h
  · exact catIdsPos_importQRows qrows db (initialQCatMap db) 2 h
  · intro c hc heq
    have := h.1 c hc
    rw [heq] at this
    simp [all_categories_id] at this
  · unfold joinCategoryName
    have hfind : db.categories.find? (fun c => c.id = all_categories_id) = none := by
      rw [List.find?_eq_none]
      intro c hc
      have h1 := h.1 c hc
      simp only [all_categories_id, decide_eq_true_eq]
      omega
    rw [hfind]

/-- Witness for C4 at a concrete state satisfying the invariant. -/
theorem c4_sentinel_never_a_real_category_witness :
    (save_score (init_database emptyDB) "u" none 3 5 "t").scores
      = (init_database emptyDB).scores ++
        [⟨(init_database emptyDB).nextScoreId, "u", all_categories_id, 3, 5, "t"⟩] ∧
    all_categories_id = 0 ∧
    CatIdsPos emptyDB ∧
    CatIdsPos (init_database (init_database emptyDB)) ∧
    CatIdsPos (save_score (init_database emptyDB) "u" (some 1) 3 5 "t") ∧
    CatIdsPos (add_question (init_database emptyDB) 1 "q" ["a", "b", "c", "d"] 3 "e") ∧
    CatIdsPos (import_leaderboard_from_csv (init_database emptyDB) [] "now").1 ∧
    CatIdsPos (import_questions_from_csv (init_database emptyDB) []).1 ∧
    (∀ c ∈ (init_database emptyDB).categories, c.id ≠ all_categories_id) ∧
    joinCategoryName (init_database emptyDB) all_categories_id = "All Categories" :=
  c4_sentinel_never_a_real_category (init_database emptyDB) "u" "q" "e" "now" "t"
    3 5 1 (some 1) ["a", "b", "c", "d"] [] [] (by decide)

/-! ### C5 -/

theorem importSStep_scores (db : DB) (cmap : List (String × Int)) (n : Nat) (now : String)
    (rrow : ScoreCsvRow) :
    ∀ r ∈ (importSStep db cmap n now rrow).1.scores,
      r ∈ db.scores ∨ (0 ≤ r.score ∧ r.score ≤ r.total_questions) := by
  unfold importSStep
  dsimp only
  split
  · intro r hr
    exact Or.inl hr
  · split
    · split
      · intro r hr
        exact Or.inl hr
      · split
        · intro r hr
          exact Or.inl hr
        · rename_i score total hrange _ _
          intro r hr
          simp only [List.mem_append, List.mem_singleton] at hr
          rcases hr with hr | hr
          · exact Or.inl hr
          · subst hr
            refine Or.inr ⟨?_, ?_⟩ <;> [skip; skip] <;> simp only [] <;> omega
    · intro r hr
      exact Or.inl hr

theorem importSRows_scores (rows : List ScoreCsvRow) (db : DB) (cmap : List (String × Int))
    (n : Nat) (now : String) :
    ∀ r ∈ (importSRows db cmap n now rows).1.scores,
      r ∈ db.scores ∨ (0 ≤ r.score ∧ r.score ≤ r.total_questions) := by
  induction rows generalizing db n with
  | nil => exact fun r hr => Or.inl hr
  | cons rrow rs ih =>
      intro r hr
      rcases ih (importSStep db cmap n now rrow).1 (n + 1) r hr with h1 | h1
      · exact importSStep_scores db cmap n now rrow r h1
      · exact Or.inr h1

/-- C5 counterexample: `save_score` performs no range validation, so the
insertion path `save_score` can store a row with `score > total_questions`
(here 5/3), falsifying "0 ≤ score ≤ total_questions holds at insertion time
for every insertion path". -/
theorem c5_counterexample :
    ∃ r ∈ (save_score emptyDB "u" none 5 3 "t").scores,
      ¬ (0 ≤ r.score ∧ r.score ≤ r.total_questions) := by
  decide

/-- C5 amended: the CSV leaderboard import inserts only rows satisfying
`0 ≤ score ≤ total_questions`, rejecting a violating row with its row-level
`Invalid score` error, inserting nothing for it and not counting it;
`save_score` itself performs no validation — it stores exactly the
caller-supplied values, so its insertions satisfy the invariant only when the
caller's arguments already do (as the quiz flow's do). -/
theorem c5_score_range (db : DB) (rows : List ScoreCsvRow) (now username ts : String)
    (cid : Option Int) (score total s t : Int) (cmap : List (String × Int)) (n : Nat)
    (rrow : ScoreCsvRow)
    (hgood : 0 ≤ score ∧ score ≤ total)
    (hs : pyInt (pyStrip rrow.score) = some s)
    (ht : pyInt (pyStrip rrow.totalQuestions) = some t)
    (hm : missingErrors n (sRequired rrow) = [])
    (hv : s < 0 ∨ t < s) :
    (∀ r ∈ (import_leaderboard_from_csv db rows now).1.scores,
        r ∈ db.scores ∨ (0 ≤ r.score ∧ r.score ≤ r.total_questions)) ∧
    (importSStep db cmap n now rrow).1 = db ∧
    (importSStep db cmap n now rrow).2.1 = 0 ∧
    (importSStep db cmap n now rrow).2.2
      = ["Row " ++ toString n ++ ": Invalid score " ++ toString s ++ "/" ++ toString t] ∧
    (save_score db username cid score total ts).scores
      = db.scores ++ [⟨db.nextScoreId, username,
          (match cid with | none => all_categories_id | some c => c), score, total, ts⟩] ∧
    (∀ r ∈ (save_score db username cid score total ts).scores,
        r ∈ db.scores ∨ (0 ≤ r.score ∧ r.score ≤ r.total_questions)) := by
  have hreject : (importSStep db cmap n now rrow).1 = db ∧
      (importSStep db cmap n now rrow).2.1 = 0 ∧
      (importSStep db cmap n now rrow).2.2
        = ["Row " ++ toString n ++ ": Invalid score " ++ toString s ++ "/" ++ toString t] := by
    unfold importSStep
    simp only [hm, hs, ht, ne_eq, not_true_eq_false, if_neg, if_pos hv]
    exact ⟨rfl, rfl, rfl⟩
  refine ⟨importSRows_scores rows db (scoreCatMap db) 2 now, hreject.1, hreject.2.1,
    hreject.2.2, rfl, ?_⟩
  intro r hr
  simp only [save_score, List.mem_append, List.mem_singleton] at hr
  rcases hr with hr | hr
  · exact Or.inl hr
  · subst hr
    exact Or.inr hgood

/-- Witness for C5's amended statement at a concrete state, with a concrete
out-of-range CSV row (score 5 of 3) being rejected. -/
theorem c5_score_range_witness :
    (∀ r ∈ (import_leaderboard_from_csv emptyDB [] "now").1.scores,
        r ∈ emptyDB.scores ∨ (0 ≤ r.score ∧ r.score ≤ r.total_questions)) ∧
    (importSStep emptyDB [] 2 "now" ⟨"u", "All Categories", "5", "3", ""⟩).1 = emptyDB ∧
    (importSStep emptyDB [] 2 "now" ⟨"u", "All Categories", "5", "3", ""⟩).2.1 = 0 ∧
    (importSStep emptyDB [] 2 "now" ⟨"u", "All Categories", "5", "3", ""⟩).2.2
      = ["Row " ++ toString 2 ++ ": Invalid score " ++ toString (5 : Int) ++ "/" ++
          toString (3 : Int)] ∧
    (save_score emptyDB "u" none 3 5 "t").scores
      = emptyDB.scores ++ [⟨emptyDB.nextScoreId, "u",
          (match (none : Option Int) with | none => all_categories_id | some c => c),
          3, 5, "t"⟩] ∧
    (∀ r ∈ (save_score emptyDB "u" none 3 5 "t").scores,
        r ∈ emptyDB.scores ∨ (0 ≤ r.score ∧ r.score ≤ r.total_questions)) :=
  c5_score_range emptyDB [] "now" "u" "t" none 3 5 5 3 [] 2
    ⟨"u", "All Categories", "5", "3", ""⟩ (by decide) (by decide) (by decide)
    (by decide) (by decide)

/-! ### C10 -/

/-- C10: in `import_questions_from_csv`, an unseen category named by a row is
inserted before the row's `Correct Answer` is validated, so a row rejected
for an invalid correct answer still permanently creates the category: the
questions table is unchanged, nothing is counted, the row error is recorded —
and yet the category table has grown. -/
theorem c10_category_created_before_answer_validation (db : DB) (r : QuestionCsvRow)
    (hm : missingErrors 2 (qRequired r) = [])
    (hca : pyUpper (pyStrip r.correctAnswer) ∉ validLetters)
    (hnew : dictGet (initialQCatMap db) (pyStrip r.category) = none) :
    (import_questions_from_csv db [r]).1.categories
      = db.categories ++ [⟨db.nextCategoryId, pyStrip r.category,
          "Imported category: " ++ pyStrip r.category⟩] ∧
    (∃ c ∈ (import_questions_from_csv db [r]).1.categories, c.name = pyStrip r.category) ∧
    (import_questions_from_csv db [r]).1.questions = db.questions ∧
    (import_questions_from_csv db [r]).2.1 = 0 ∧
    (import_questions_from_csv db [r]).2.2
      = ["Row 2: Invalid correct answer '" ++ pyUpper (pyStrip r.correctAnswer) ++
          "'. Must be A, B, C, or D"] := by
  have hres : import_questions_from_csv db [r]
      = ({ db with
            categories := db.categories ++ [⟨db.nextCategoryId, pyStrip r.category,
              "Imported category: " ++ pyStrip r.category⟩],
            nextCategoryId := db.nextCategoryId + 1 }, 0,
          ["Row 2: Invalid correct answer '" ++ pyUpper (pyStrip r.correctAnswer) ++
            "'. Must be A, B, C, or D"]) := by
    unfold import_questions_from_csv importQRows importQStep
    simp only [hm, hnew, ne_eq, not_true_eq_false, if_neg, if_pos hca]
    rfl
  rw [hres]
  refine ⟨rfl, ?_, rfl, rfl, rfl⟩
  exact ⟨⟨db.nextCategoryId, pyStrip r.category, "Imported category: " ++ pyStrip r.category⟩,
    List.mem_append_right _ (List.mem_singleton.mpr rfl), rfl⟩

/-- The row of C10's and C7's witnesses: well-formed fields but correct
answer `"E"`, naming a category absent from the seeded database. -/
def rowE : QuestionCsvRow := ⟨"NewCat", "Q", "a", "b", "c", "d", "E", ""⟩

/-- Witness for C10 on the seeded database and the `"E"` row. -/
theorem c10_category_created_before_answer_validation_witness :
    (import_questions_from_csv (init_database emptyDB) [rowE]).1.categories
      = (init_database emptyDB).categories ++
        [⟨(init_database emptyDB).nextCategoryId, pyStrip rowE.category,
          "Imported category: " ++ pyStrip rowE.category⟩] ∧
    (∃ c ∈ (import_questions_from_csv (init_database emptyDB) [rowE]).1.categories,
      c.name = pyStrip rowE.category) ∧
    (import_questions_from_csv (init_database emptyDB) [rowE]).1.questions
      = (init_database emptyDB).questions ∧
    (import_questions_from_csv (init_database emptyDB) [rowE]).2.1 = 0 ∧
    (import_questions_from_csv (init_database emptyDB) [rowE]).2.2
      = ["Row 2: Invalid correct answer '" ++ pyUpper (pyStrip rowE.correctAnswer) ++
          "'. Must be A, B, C, or D"] :=
  c10_category_created_before_answer_validation (init_database emptyDB) rowE
    (by decide) (by decide) (by decide)

/-! ### C7 -/

/-- A questions-CSV row passes all row-level validation: no required field is
empty after stripping, and the correct answer letter is one of A-D. -/
def qRowOk (r : QuestionCsvRow) : Bool :=
  ((qRequired r).filter (fun p => pyStrip p.2 = "")).isEmpty &&
  decide (pyUpper (pyStrip r.correctAnswer) ∈ validLetters)

theorem missingErrors_eq_nil (n m : Nat) (fields : List (String × String)) :
    missingErrors n fields = [] ↔ missingErrors m fields = [] := by
  unfold missingErrors
  simp

theorem importQStep_count (db : DB) (cmap : List (String × Int)) (n : Nat)
    (r : QuestionCsvRow) :
    (importQStep db cmap n r).2.2.1 = (if qRowOk r then 1 else 0) ∧
    (importQStep db cmap n r).1.questions.length
      = db.questions.length + (if qRowOk r then 1 else 0) := by
  unfold importQStep
  dsimp only
  split
  · rename_i hmiss
    have hok : qRowOk r = false := by
      unfold qRowOk
      simp only [missingErrors, ne_eq, List.map_eq_nil_iff] at hmiss
      simp [List.isEmpty_iff, hmiss]
    simp [hok]
  · rename_i hmiss
    have hfields : ((qRequired r).filter (fun p => pyStrip p.2 = "")).isEmpty = true := by
      simp only [missingErrors, ne_eq, not_not, List.map_eq_nil_iff] at hmiss
      simp [List.isEmpty_iff, hmiss]
    by_cases hca : pyUpper (pyStrip r.correctAnswer) ∈ validLetters
    · have hok : qRowOk r = true := by
        unfold qRowOk
        simp [hfields, hca]
      rw [if_neg (not_not_intro hca), hok]
      refine ⟨rfl, ?_⟩
      split <;> simp [add_question]
    · have hok : qRowOk r = false := by
        unfold qRowOk
        simp [hca]
      rw [if_pos hca, hok]
      refine ⟨rfl, ?_⟩
      split <;> simp

theorem importQRows_count (rows : List QuestionCsvRow) (db : DB)
    (cmap : List (String × Int)) (n : Nat) :
    (importQRows db cmap n rows).2.1 = (rows.filter qRowOk).length ∧
    (importQRows db cmap n rows).1.questions.length
      = db.questions.length + (rows.filter qRowOk).length := by
  induction rows generalizing db cmap n with
  | nil => exact ⟨rfl, rfl⟩
  | cons r rs ih =>
      have hstep := importQStep_count db cmap n r
      have hrest := ih (importQStep db cmap n r).1 (importQStep db cmap n r).2.1 (n + 1)
      unfold importQRows
      dsimp only
      constructor
      · rw [hrest.1, hstep.1, List.filter_cons]
        cases hq : qRowOk r <;> (simp; all_goals omega)
      · rw [hrest.2, hstep.2, List.filter_cons]
        cases hq : qRowOk r <;> (simp; all_goals omega)

theorem importQStep_invalid_answer_error (db : DB) (cmap : List (String × Int)) (n : Nat)
    (r : QuestionCsvRow)
    (hm : missingErrors n (qRequired r) = [])
    (hca : pyUpper (pyStrip r.correctAnswer) ∉ validLetters) :
    (importQStep db cmap n r).2.2.2
      = ["Row " ++ toString n ++ ": Invalid correct answer '" ++
          pyUpper (pyStrip r.correctAnswer) ++ "'. Must be A, B, C, or D"] := by
  unfold importQStep
  dsimp only
  rw [if_neg (by simp [hm]), if_pos hca]

theorem importQRows_invalid_answer_error (rows : List QuestionCsvRow) (db : DB)
    (cmap : List (String × Int)) (n i : Nat) (hi : i < rows.length)
    (hm : missingErrors (n + i) (qRequired (rows.get ⟨i, hi⟩)) = [])
    (hca : pyUpper (pyStrip (rows.get ⟨i, hi⟩).correctAnswer) ∉ validLetters) :
    ("Row " ++ toString (n + i) ++ ": Invalid correct answer '" ++
        pyUpper (pyStrip (rows.get ⟨i, hi⟩).correctAnswer) ++ "'. Must be A, B, C, or D")
      ∈ (importQRows db cmap n rows).2.2 := by
  induction rows generalizing db cmap n i with
  | nil => exact absurd hi (by simp)
  | cons r rs ih =>
      cases i with
      | zero =>
          simp only [List.get] at hm hca ⊢
          unfold importQRows
          dsimp only
          apply List.mem_append_left
          rw [importQStep_invalid_answer_error db cmap n r (by simpa using hm) hca]
          simp
      | succ k =>
          have hk : k < rs.length := by simpa using hi
          have hm2 : missingErrors ((n + 1) + k) (qRequired (rs.get ⟨k, hk⟩)) = [] := by
            have : (n + 1) + k = n + (k + 1) := by omega
            rw [this]
            simpa only [List.get] using hm
          have hca2 : pyUpper (pyStrip (rs.get ⟨k, hk⟩).correctAnswer) ∉ validLetters := by
            simpa only [List.get] using hca
          have hrec := ih (importQStep db cmap n r).1 (importQStep db cmap n r).2.1
            (n + 1) k hk hm2 hca2
          unfold importQRows
          dsimp only
          apply List.mem_append_right
          have harith : n + 1 + k = n + (k + 1) := by omega
          rw [harith] at hrec
          simpa only [List.get] using hrec

/-- C7: a questions-CSV row whose `Correct Answer` (stripped, uppercased) is
not one of A-D — such as `"E"` — and whose required fields are present, gets
the row-specific `Invalid correct answer` error; no question is inserted for
it and it does not count toward the returned success count: the count and
the questions-table growth both equal the number of fully valid rows, which
excludes every invalid-answer row. -/
theorem c7_invalid_answer_row_rejected (db : DB) (rows : List QuestionCsvRow) (i : Nat)
    (hi : i < rows.length)
    (hm : missingErrors (2 + i) (qRequired (rows.get ⟨i, hi⟩)) = [])
    (hca : pyUpper (pyStrip (rows.get ⟨i, hi⟩).correctAnswer) ∉ validLetters) :
    (import_questions_from_csv db rows).2.1 = (rows.filter qRowOk).length ∧
    (import_questions_from_csv db rows).1.questions.length
      = db.questions.length + (rows.filter qRowOk).length ∧
    qRowOk (rows.get ⟨i, hi⟩) = false ∧
    ("Row " ++ toString (2 + i) ++ ": Invalid correct answer '" ++
        pyUpper (pyStrip (rows.get ⟨i, hi⟩).correctAnswer) ++ "'. Must be A, B, C, or D")
      ∈ (import_questions_from_csv db rows).2.2 := by
  have hcount := importQRows_count rows db (initialQCatMap db) 2
  refine ⟨hcount.1, hcount.2, ?_, ?_⟩
  · unfold qRowOk
    rw [decide_eq_false hca, Bool.and_false]
  · exact importQRows_invalid_answer_error rows db (initialQCatMap db) 2 i hi hm hca

/-- Witness for C7: a single-row import whose row has `Correct Answer "E"`. -/
theorem c7_invalid_answer_row_rejected_witness :
    (import_questions_from_csv (init_database emptyDB) [rowE]).2.1
      = ([rowE].filter qRowOk).length ∧
    (import_questions_from_csv (init_database emptyDB) [rowE]).1.questions.length
      = (init_database emptyDB).questions.length + ([rowE].filter qRowOk).length ∧
    qRowOk rowE = false ∧
    ("Row " ++ toString (2 + 0) ++ ": Invalid correct answer '" ++
        pyUpper (pyStrip rowE.correctAnswer) ++ "'. Must be A, B, C, or D")
      ∈ (import_questions_from_csv (init_database emptyDB) [rowE]).2.2 :=
  c7_invalid_answer_row_rejected (init_database emptyDB) [rowE] 0 (by decide)
    (by decide) (by decide)

/-! ### C8 -/

theorem length_filterMap_of_isSome {α β : Type} (f : α → Option β) (l : List α)
    (h : ∀ a ∈ l, (f a).isSome) : (l.filterMap f).length = l.length := by
  induction l with
  | nil => rfl
  | cons a tl ih =>
      have ha := h a (List.mem_cons_self a tl)
      cases hfa : f a with
      | none => rw [hfa] at ha; exact absurd ha (by simp)
      | some x =>
          simp only [List.filterMap_cons, hfa, List.length_cons]
          rw [ih (fun b hb => h b (List.mem_cons_of_mem _ hb))]

/-- C8: for every category id and limit, `get_questions_by_category` returns
at most `limit` questions (default 15 when the limit is omitted), each of
which is a decrypted question of that category with its row id attached;
rows failing decryption are dropped; when every row of the category
decrypts, the result length is `min limit (category size)` — in particular,
a category holding exactly 5 decryptable questions yields exactly 5 under
the default limit 15.  `ORDER BY RANDOM()` is modelled by a `shuffle`
function constrained to permute its input. -/
theorem c8_get_questions_by_category (db : DB) (cid : Int) (limit : Option Nat)
    (shuffle : List QuestionRow → List QuestionRow)
    (hperm : ∀ l, (shuffle l).Perm l)
    (hok : StoredOk db) :
    (get_questions_by_category db cid limit shuffle).length
      ≤ limit.getD default_question_limit ∧
    (∀ j ∈ get_questions_by_category db cid limit shuffle,
      ∃ r ∈ db.questions, r.category_id = cid ∧ rowToQuestion r = some j ∧
        attachedId j = some r.id) ∧
    get_questions_by_category db cid none shuffle
      = get_questions_by_category db cid (some default_question_limit) shuffle ∧
    ((∀ r ∈ db.questions.filter (fun r => r.category_id = cid), (rowToQuestion r).isSome) →
      (get_questions_by_category db cid limit shuffle).length
        = min (limit.getD default_question_limit)
            (db.questions.filter (fun r => r.category_id = cid)).length) ∧
    ((∀ r ∈ db.questions.filter (fun r => r.category_id = cid), (rowToQuestion r).isSome) →
      (db.questions.filter (fun r => r.category_id = cid)).length = 5 →
      limit.getD default_question_limit = 15 →
      (get_questions_by_category db cid limit shuffle).length = 5) := by
  have hmemrows : ∀ r ∈ (shuffle (db.questions.filter (fun r => r.category_id = cid))).take
      (limit.getD default_question_limit),
      r ∈ db.questions.filter (fun r => r.category_id = cid) := by
    intro r hr
    exact ((hperm _).mem_iff).mp (List.mem_of_mem_take hr)
  have hlenmin : (∀ r ∈ db.questions.filter (fun r => r.category_id = cid),
      (rowToQuestion r).isSome) →
      (get_questions_by_category db cid limit shuffle).length
        = min (limit.getD default_question_limit)
            (db.questions.filter (fun r => r.category_id = cid)).length := by
    intro hall
    unfold get_questions_by_category
    rw [length_filterMap_of_isSome _ _ (fun r hr => hall r (hmemrows r hr))]
    rw [List.length_take, (hperm _).length_eq]
  refine ⟨?_, ?_, rfl, hlenmin, ?_⟩
  · calc (get_questions_by_category db cid limit shuffle).length
        ≤ ((shuffle (db.questions.filter (fun r => r.category_id = cid))).take
            (limit.getD default_question_limit)).length := List.length_filterMap_le _ _
      _ ≤ limit.getD default_question_limit := List.length_take_le _ _
  · intro j hj
    unfold get_questions_by_category at hj
    rcases List.mem_filterMap.mp hj with ⟨r, hr, hq⟩
    have hrf := hmemrows r hr
    have hrq := List.mem_filter.mp hrf
    have hcat : r.category_id = cid := by simpa using hrq.2
    exact ⟨r, hrq.1, hcat, hq,
      rowToQuestion_attachedId r j (hok r hrq.1) hq⟩
  · intro hall h5 h15
    rw [hlenmin hall, h5, h15]
    rfl

/-- A database whose single category holds exactly 5 decryptable
questions. -/
def dbFive : DB :=
  ⟨[⟨1, "Cat", "d"⟩],
   [⟨1, 1, encrypt_data (questionJson 1 "Q1" ["a", "b", "c", "d"] 1 "")⟩,
    ⟨2, 1, encrypt_data (questionJson 1 "Q2" ["a", "b", "c", "d"] 2 "")⟩,
    ⟨3, 1, encrypt_data (questionJson 1 "Q3" ["a", "b", "c", "d"] 3 "")⟩,
    ⟨4, 1, encrypt_data (questionJson 1 "Q4" ["a", "b", "c", "d"] 4 "")⟩,
    ⟨5, 1, encrypt_data (questionJson 1 "Q5" ["a", "b", "c", "d"] 1 "")⟩],
   [], 2, 6, 1⟩

set_option maxRecDepth 200000 in
/-- Witness for C8 on a 5-question category with the default limit and the
identity shuffle. -/
theorem c8_get_questions_by_category_witness :
    (get_questions_by_category dbFive 1 none (fun l => l)).length
      ≤ (none : Option Nat).getD default_question_limit ∧
    (∀ j ∈ get_questions_by_category dbFive 1 none (fun l => l),
      ∃ r ∈ dbFive.questions, r.category_id = 1 ∧ rowToQuestion r = some j ∧
        attachedId j = some r.id) ∧
    get_questions_by_category dbFive 1 none (fun l => l)
      = get_questions_by_category dbFive 1 (some default_question_limit) (fun l => l) ∧
    ((∀ r ∈ dbFive.questions.filter (fun r => r.category_id = 1), (rowToQuestion r).isSome) →
      (get_questions_by_category dbFive 1 none (fun l => l)).length
        = min ((none : Option Nat).getD default_question_limit)
            (dbFive.questions.filter (fun r => r.category_id = 1)).length) ∧
    ((∀ r ∈ dbFive.questions.filter (fun r => r.category_id = 1), (rowToQuestion r).isSome) →
      (dbFive.questions.filter (fun r => r.category_id = 1)).length = 5 →
      (none : Option Nat).getD default_question_limit = 15 →
      (get_questions_by_category dbFive 1 none (fun l => l)).length = 5) :=
  c8_get_questions_by_category dbFive 1 none (fun l => l)
    (fun l => List.Perm.refl l) (by decide)

/-! ### C2 -/

/-- The scores of the spec's worked example: for category 1, A scored 8/10,
B scored 9/10, and C scored 8/10 with the earliest timestamp. -/
def dbOrdering : DB :=
  ⟨[⟨1, "Cat", "d"⟩], [],
   [⟨1, "A", 1, 8, 10, "2024-01-02 10:00:00"⟩,
    ⟨2, "B", 1, 9, 10, "2024-01-03 10:00:00"⟩,
    ⟨3, "C", 1, 8, 10, "2024-01-01 10:00:00"⟩],
   2, 1, 4⟩

/-- Two attempts whose exact ratios differ (0.854 vs 0.8537) but whose
percentages rounded to one decimal coincide (85.4). -/
def dbRounding : DB :=
  ⟨[⟨1, "Cat", "d"⟩], [],
   [⟨1, "X", 1, 854, 1000, "2024-01-02 10:00:00"⟩,
    ⟨2, "Y", 1, 8537, 10000, "2024-01-01 10:00:00"⟩],
   2, 1, 3⟩

/-- C2 counterexample: the category leaderboard orders by
`ROUND(score*100.0/total_questions, 1)`, not by the exact ratio
`score/total`.  X's exact ratio 854/1000 exceeds Y's 8537/10000, yet both
round to 85.4, so the earlier-completed Y is returned first — the rows are
not in descending `score/total` order. -/
theorem c2_counterexample :
    (get_leaderboard_cat dbRounding 1 20).map (fun r => (r.username, r.score, r.total_questions))
      = [("Y", 8537, 10000), ("X", 854, 1000)] ∧
    (8537 : ℚ) / 10000 < (854 : ℚ) / 1000 := by
  constructor
  · decide
  · norm_num

/-- C2 amended: for a supplied category id the leaderboard returns
per-attempt rows of that category, at most `limit` of them, sorted by the
percentage rounded to one decimal (`ROUND(score*100.0/total_questions, 1)`)
descending with ties broken by earliest `completed_at`; on the spec's worked
example `[(A,8,10), (B,9,10), (C,8,10 earlier)]` the returned order is
B, C, A. -/
theorem c2_leaderboard_cat_ordering (db : DB) (cid : Int) (limit : Nat)
    (htot : ∀ r ∈ db.scores, 0 < r.total_questions) :
    List.Sorted catLBOrder (get_leaderboard_cat db cid limit) ∧
    List.Pairwise catLBOrderQ (get_leaderboard_cat db cid limit) ∧
    (∀ row ∈ get_leaderboard_cat db cid limit,
      ∃ r ∈ db.scores, r.category_id = cid ∧ row = catRowOf r) ∧
    (get_leaderboard_cat db cid limit).length ≤ limit ∧
    get_leaderboard_cat dbOrdering 1 20
      = [catRowOf ⟨2, "B", 1, 9, 10, "2024-01-03 10:00:00"⟩,
         catRowOf ⟨3, "C", 1, 8, 10, "2024-01-01 10:00:00"⟩,
         catRowOf ⟨1, "A", 1, 8, 10, "2024-01-02 10:00:00"⟩] := by
  have hmemthm : ∀ row ∈ get_leaderboard_cat db cid limit,
      ∃ r ∈ db.scores, r.category_id = cid ∧ row = catRowOf r := by
    intro row hrow
    unfold get_leaderboard_cat at hrow
    have h1 : row ∈ List.insertionSort catLBOrder
        ((db.scores.filter (fun r => r.category_id = cid)).map catRowOf) :=
      List.mem_of_mem_take hrow
    rw [List.mem_insertionSort] at h1
    rcases List.mem_map.mp h1 with ⟨r, hr, hrow2⟩
    have hrf := List.mem_filter.mp hr
    exact ⟨r, hrf.1, by simpa using hrf.2, hrow2.symm⟩
  have hsorted : List.Sorted catLBOrder (get_leaderboard_cat db cid limit) := by
    have hs : List.Sorted catLBOrder
        (List.insertionSort catLBOrder
          ((db.scores.filter (fun r => r.category_id = cid)).map catRowOf)) :=
      List.sorted_insertionSort catLBOrder _
    exact hs.sublist (List.take_sublist _ _)
  refine ⟨hsorted, ?_, hmemthm, List.length_take_le _ _, by decide⟩
  refine List.Pairwise.imp_of_mem ?_ hsorted
  intro a b ha hb hab
  rcases hmemthm a ha with ⟨ra, hra, _, hae⟩
  rcases hmemthm b hb with ⟨rb, hrb, _, hbe⟩
  have hta : 0 < a.total_questions := by rw [hae]; exact htot ra hra
  have htb : 0 < b.total_questions := by rw [hbe]; exact htot rb hrb
  have hka : a.percentage_tenths = percentageTenths a.score a.total_questions := by
    rw [hae]; rfl
  have hkb : b.percentage_tenths = percentageTenths b.score b.total_questions := by
    rw [hbe]; rfl
  have hba : (percentageTenths a.score a.total_questions : ℚ)
      = 10 * roundedPercentage a.score a.total_questions :=
    percentageTenths_eq a.score a.total_questions hta
  have hbb : (percentageTenths b.score b.total_questions : ℚ)
      = 10 * roundedPercentage b.score b.total_questions :=
    percentageTenths_eq b.score b.total_questions htb
  unfold catLBOrder at hab
  unfold catLBOrderQ
  rcases hab with hlt | ⟨heq, hstr⟩
  · left
    have hc : (b.percentage_tenths : ℚ) < (a.percentage_tenths : ℚ) := by
      exact_mod_cast hlt
    rw [hka, hkb, hba, hbb] at hc
    linarith
  · right
    refine ⟨?_, hstr⟩
    have hc : (a.percentage_tenths : ℚ) = (b.percentage_tenths : ℚ) := by
      exact_mod_cast heq
    rw [hka, hkb, hba, hbb] at hc
    linarith

/-- Witness for C2's amended ordering contract on the worked example. -/
theorem c2_leaderboard_cat_ordering_witness :
    List.Sorted catLBOrder (get_leaderboard_cat dbOrdering 1 20) ∧
    List.Pairwise catLBOrderQ (get_leaderboard_cat dbOrdering 1 20) ∧
    (∀ row ∈ get_leaderboard_cat dbOrdering 1 20,
      ∃ r ∈ dbOrdering.scores, r.category_id = 1 ∧ row = catRowOf r) ∧
    (get_leaderboard_cat dbOrdering 1 20).length ≤ 20 ∧
    get_leaderboard_cat dbOrdering 1 20
      = [catRowOf ⟨2, "B", 1, 9, 10, "2024-01-03 10:00:00"⟩,
         catRowOf ⟨3, "C", 1, 8, 10, "2024-01-01 10:00:00"⟩,
         catRowOf ⟨1, "A", 1, 8, 10, "2024-01-02 10:00:00"⟩] :=
  c2_leaderboard_cat_ordering dbOrdering 1 20 (by decide)

/-! ### C3 -/

/-- A database with 21 distinct usernames (`u1` has the lowest average), so
the default `LIMIT 20` must drop one of them. -/
def dbMany : DB :=
  ⟨[], [],
   (List.range 21).map (fun i =>
     ⟨(i : Int) + 1, "u" ++ toString (i + 1), 0, (i : Int) + 1, 100, "t"⟩),
   1, 1, 22⟩

set_option maxRecDepth 200000 in
/-- C3 counterexample: with 21 distinct usernames in the score table, the
all-categories leaderboard (default `LIMIT 20`) returns no row for `u1`, so
it does not return "exactly one row per distinct username appearing in the
score table". -/
theorem c3_counterexample :
    "u1" ∈ dbMany.scores.map (fun r => r.username) ∧
    ∀ row ∈ get_leaderboard_all dbMany 20, row.username ≠ "u1" := by
  constructor
  · decide
  · decide

/-- C3 amended: the all-categories leaderboard returns at most one row per
username (no username is repeated), each returned row is the aggregate of
all of that user's score records — its percentage is exactly the arithmetic
mean of `score/total*100` over all of the user's attempts, never a single
best attempt — and whenever the number of distinct usernames does not exceed
the limit (20 by default), every distinct username of the score table gets
exactly one row. -/
theorem c3_leaderboard_all_contract (db : DB) (limit : Nat)
    (htot : ∀ r ∈ db.scores, 0 < r.total_questions) :
    ((get_leaderboard_all db limit).map (fun row => row.username)).Nodup ∧
    (∀ row ∈ get_leaderboard_all db limit,
      row = allRowOf db row.username ∧
      row.username ∈ db.scores.map (fun r => r.username) ∧
      ratOf row.avg_percentage = meanPercentage (userScores db row.username)) ∧
    ((db.scores.map (fun r => r.username)).dedup.length ≤ limit →
      ∀ u ∈ (db.scores.map (fun r => r.username)).dedup,
        ∃ row ∈ get_leaderboard_all db limit, row.username = u) := by
  have husername : ∀ u : String, (allRowOf db u).username = u := fun u => rfl
  have hbase : (((db.scores.map (fun r => r.username)).dedup.map (allRowOf db)).map
      (fun row => row.username)) = (db.scores.map (fun r => r.username)).dedup := by
    rw [List.map_map]
    exact List.map_id _
  refine ⟨?_, ?_, ?_⟩
  · have hperm : List.Perm
        ((List.insertionSort allLBOrder
          ((db.scores.map (fun r => r.username)).dedup.map (allRowOf db))).map
            (fun row => row.username))
        ((((db.scores.map (fun r => r.username)).dedup.map (allRowOf db)).map
            (fun row => row.username))) :=
      (List.perm_insertionSort allLBOrder _).map _
    have hnd : ((List.insertionSort allLBOrder
        ((db.scores.map (fun r => r.username)).dedup.map (allRowOf db))).map
          (fun row => row.username)).Nodup := by
      rw [hperm.nodup_iff, hbase]
      exact (db.scores.map (fun r => r.username)).nodup_dedup
    unfold get_leaderboard_all
    rw [List.map_take]
    exact hnd.sublist (List.take_sublist _ _)
  · intro row hrow
    unfold get_leaderboard_all at hrow
    have h1 := List.mem_of_mem_take hrow
    rw [List.mem_insertionSort] at h1
    rcases List.mem_map.mp h1 with ⟨u, hu, hue⟩
    have hrowu : row.username = u := by
      rw [← hue]
      exact husername u
    constructor
    · rw [hrowu, ← hue]
    constructor
    · rw [hrowu]
      exact List.mem_dedup.mp hu
    · rw [hrowu, ← hue]
      show ratOf (avgPercentage (userScores db u)) = _
      exact ratOf_avgPercentage (userScores db u)
        (fun r hr => htot r (List.mem_filter.mp hr).1)
  · intro hlen u hu
    have hlensort : (List.insertionSort allLBOrder
        ((db.scores.map (fun r => r.username)).dedup.map (allRowOf db))).length ≤ limit := by
      rw [(List.perm_insertionSort allLBOrder _).length_eq, List.length_map]
      exact hlen
    unfold get_leaderboard_all
    rw [List.take_of_length_le hlensort]
    refine ⟨allRowOf db u, ?_, rfl⟩
    rw [List.mem_insertionSort]
    exact List.mem_map_of_mem (allRowOf db) hu

/-- Two users for C3's witness: A with attempts 8/10 and 6/10 (mean 70%),
B with a single 9/10 (90%). -/
def dbAvg : DB :=
  ⟨[], [],
   [⟨1, "A", 0, 8, 10, "t1"⟩, ⟨2, "A", 0, 6, 10, "t2"⟩, ⟨3, "B", 0, 9, 10, "t3"⟩],
   1, 1, 4⟩

/-- Witness for C3's amended contract at a concrete database. -/
theorem c3_leaderboard_all_contract_witness :
    ((get_leaderboard_all dbAvg 20).map (fun row => row.username)).Nodup ∧
    (∀ row ∈ get_leaderboard_all dbAvg 20,
      row = allRowOf dbAvg row.username ∧
      row.username ∈ dbAvg.scores.map (fun r => r.username) ∧
      ratOf row.avg_percentage = meanPercentage (userScores dbAvg row.username)) ∧
    ((dbAvg.scores.map (fun r => r.username)).dedup.length ≤ 20 →
      ∀ u ∈ (dbAvg.scores.map (fun r => r.username)).dedup,
        ∃ row ∈ get_leaderboard_all dbAvg 20, row.username = u) :=
  c3_leaderboard_all_contract dbAvg 20 (by decide)

/-! ### C6 -/

/-- A string unchanged by stripping and nonempty: the shape under which the
CSV importer's strip-and-require-nonempty treatment is the identity. -/
def cleanStr (s : String) : Prop := pyStrip s = s ∧ s ≠ ""

instance (s : String) : Decidable (cleanStr s) := by
  unfold cleanStr
  infer_instance

/-- Per-question well-formedness for the export/import round trip: the
ciphertext decrypts to a `questionJson` record with exactly four options, a
correct answer in 1..4, a category id present in the category table, and
text fields that survive the importer's stripping. -/
def QWF (db : DB) (qr : QuestionRow) : Prop :=
  ∃ (cid : Int) (q o1 o2 o3 o4 : String) (ca : Int) (ex : String),
    decrypt_data qr.encrypted_data = some (questionJson cid q [o1, o2, o3, o4] ca ex) ∧
    (∃ c ∈ db.categories, c.id = cid) ∧
    1 ≤ ca ∧ ca ≤ 4 ∧
    cleanStr q ∧ cleanStr o1 ∧ cleanStr o2 ∧ cleanStr o3 ∧ cleanStr o4 ∧
    pyStrip ex = ex

/-- Database well-formedness for the round trip: distinct category ids and
names, names that survive stripping, and `QWF` for every stored question. -/
def DBWF (db : DB) : Prop :=
  (db.categories.map (fun c => c.id)).Nodup ∧
  (db.categories.map (fun c => c.name)).Nodup ∧
  (∀ c ∈ db.categories, cleanStr c.name) ∧
  (∀ qr ∈ db.questions, QWF db qr)

theorem dictGet_of_nodup {κ β : Type} [DecidableEq κ] (pairs : List (κ × β)) (k : κ) (v : β)
    (hnd : (pairs.map Prod.fst).Nodup) (hmem : (k, v) ∈ pairs) : dictGet pairs k = some v := by
  induction pairs with
  | nil => cases hmem
  | cons p rest ih =>
      simp only [List.map_cons, List.nodup_cons] at hnd
      rcases List.mem_cons.mp hmem with he | hm
      · have hk : p.1 = k := by rw [← he]
        have hv : p.2 = v := by rw [← he]
        have hnone : dictGet rest k = none :=
          dictGet_eq_none_of_not_mem rest k (hk ▸ hnd.1)
        simp [dictGet, hnone, hk, hv]
      · simp [dictGet, ih hnd.2 hm]

theorem categoryNameOf_eq (db : DB) (c : CategoryRow) (hc : c ∈ db.categories)
    (hnd : (db.categories.map (fun c => c.id)).Nodup) :
    categoryNameOf db (Json.int c.id) = c.name := by
  unfold categoryNameOf
  have hndp : (((get_categories db).map (fun c => (c.id, c.name))).map Prod.fst).Nodup := by
    rw [List.map_map]
    have hperm : List.Perm ((get_categories db).map (fun c => c.id))
        (db.categories.map (fun c => c.id)) :=
      (List.perm_insertionSort catNameLe db.categories).map _
    exact (hperm.nodup_iff).mpr hnd
  have hmem : (c.id, c.name) ∈ (get_categories db).map (fun c => (c.id, c.name)) :=
    List.mem_map_of_mem _ ((List.mem_insertionSort catNameLe).mpr hc)
  dsimp only
  rw [dictGet_of_nodup _ c.id c.name hndp hmem]

theorem initialQCatMap_eq (db : DB) (c : CategoryRow) (hc : c ∈ db.categories)
    (hnd : (db.categories.map (fun c => c.name)).Nodup) :
    dictGet (initialQCatMap db) c.name = some c.id := by
  unfold initialQCatMap
  have hndp : (((get_categories db).map (fun c => (c.name, c.id))).map Prod.fst).Nodup := by
    rw [List.map_map]
    have hperm : List.Perm ((get_categories db).map (fun c => c.name))
        (db.categories.map (fun c => c.name)) :=
      (List.perm_insertionSort catNameLe db.categories).map _
    exact (hperm.nodup_iff).mpr hnd
  have hmem : (c.name, c.id) ∈ (get_categories db).map (fun c => (c.name, c.id)) :=
    List.mem_map_of_mem _ ((List.mem_insertionSort catNameLe).mpr hc)
  exact dictGet_of_nodup _ c.name c.id hndp hmem

theorem attachId_questionJson (qid cid : Int) (q : String) (opts : List String)
    (ca : Int) (ex : String) :
    attachId qid (questionJson cid q opts ca ex)
      = some (Json.obj [("category_id", Json.int cid), ("question", Json.str q),
          ("options", Json.arr (opts.map Json.str)), ("correct_answer", Json.int ca),
          ("explanation", Json.str ex), ("id", Json.int qid)]) := rfl

theorem importQStep_accept (db1 : DB) (cmap : List (String × Int)) (n : Nat)
    (r : QuestionCsvRow) (cid : Int)
    (hfields : ∀ p ∈ qRequired r, ¬ pyStrip p.2 = "")
    (hlookup : dictGet cmap (pyStrip r.category) = some cid)
    (hvalid : pyUpper (pyStrip r.correctAnswer) ∈ validLetters) :
    importQStep db1 cmap n r
      = (add_question db1 cid (pyStrip r.question)
          [pyStrip r.optionA, pyStrip r.optionB, pyStrip r.optionC, pyStrip r.optionD]
          (letterIdx (pyUpper (pyStrip r.correctAnswer))) (pyStrip r.explanation),
        cmap, 1, []) := by
  unfold importQStep
  dsimp only
  have hfilter : (qRequired r).filter (fun p => pyStrip p.2 = "") = [] := by
    rw [List.filter_eq_nil_iff]
    intro p hp
    simpa using hfields p hp
  have hmiss : missingErrors n (qRequired r) = [] := by
    unfold missingErrors
    rw [hfilter]
    rfl
  rw [if_neg (by simp [hmiss])]
  simp only [hlookup]
  rw [if_neg (not_not_intro hvalid)]

/-- One question's export row is re-imported as an `add_question` with the
original payload fields. -/
theorem export_import_one (db db1 : DB) (n : Nat) (qr : QuestionRow)
    (cid : Int) (q o1 o2 o3 o4 : String) (ca : Int) (ex : String)
    (hdec : decrypt_data qr.encrypted_data = some (questionJson cid q [o1, o2, o3, o4] ca ex))
    (hcat : ∃ c ∈ db.categories, c.id = cid)
    (hca1 : 1 ≤ ca) (hca4 : ca ≤ 4)
    (hq : cleanStr q) (ho1 : cleanStr o1) (ho2 : cleanStr o2) (ho3 : cleanStr o3)
    (ho4 : cleanStr o4) (hex : pyStrip ex = ex)
    (hndid : (db.categories.map (fun c => c.id)).Nodup)
    (hclean : ∀ c ∈ db.categories, cleanStr c.name)
    (hndname : (db.categories.map (fun c => c.name)).Nodup) :
    ∃ (j : Json) (row : QuestionCsvRow),
      rowToQuestion qr = some j ∧
      exportRow db j = some row ∧
      importQStep db1 (initialQCatMap db) n row
        = (add_question db1 cid q [o1, o2, o3, o4] ca ex, initialQCatMap db, 1, []) := by
  obtain ⟨c, hc, hcid⟩ := hcat
  have hj : rowToQuestion qr
      = some (Json.obj [("category_id", Json.int cid), ("question", Json.str q),
          ("options", Json.arr ([o1, o2, o3, o4].map Json.str)),
          ("correct_answer", Json.int ca),
          ("explanation", Json.str ex), ("id", Json.int qr.id)]) := by
    unfold rowToQuestion
    rw [hdec]
    exact attachId_questionJson qr.id cid q [o1, o2, o3, o4] ca ex
  have hname : categoryNameOf db (Json.int cid) = c.name := by
    rw [← hcid]
    exact categoryNameOf_eq db c hc hndid
  have hcn := hclean c hc
  have hlookup : dictGet (initialQCatMap db) (pyStrip c.name) = some cid := by
    rw [hcn.1, initialQCatMap_eq db c hc hndname, hcid]
  interval_cases ca
  all_goals refine ⟨_, ?_, hj, ?_, ?_⟩
  · exact ⟨c.name, q, o1, o2, o3, o4, "A", ex⟩
  · rw [← hname]
    exact rfl
  · have hfields : ∀ p ∈ qRequired ⟨c.name, q, o1, o2, o3, o4, "A", ex⟩,
        ¬ pyStrip p.2 = "" := by
      intro p hp
      simp only [qRequired, List.mem_cons, List.not_mem_nil, or_false] at hp
      rcases hp with h | h | h | h | h | h | h <;> subst h <;> simp only
      · rw [hcn.1]; exact hcn.2
      · rw [hq.1]; exact hq.2
      · rw [ho1.1]; exact ho1.2
      · rw [ho2.1]; exact ho2.2
      · rw [ho3.1]; exact ho3.2
      · rw [ho4.1]; exact ho4.2
      · decide
    rw [importQStep_accept db1 (initialQCatMap db) n ⟨c.name, q, o1, o2, o3, o4, "A", ex⟩
      cid hfields hlookup (by show pyUpper (pyStrip "A") ∈ validLetters; decide), hq.1, ho1.1, ho2.1, ho3.1, ho4.1, hex]
    rfl
  · exact ⟨c.name, q, o1, o2, o3, o4, "B", ex⟩
  · rw [← hname]
    exact rfl
  · have hfields : ∀ p ∈ qRequired ⟨c.name, q, o1, o2, o3, o4, "B", ex⟩,
        ¬ pyStrip p.2 = "" := by
      intro p hp
      simp only [qRequired, List.mem_cons, List.not_mem_nil, or_false] at hp
      rcases hp with h | h | h | h | h | h | h <;> subst h <;> simp only
      · rw [hcn.1]; exact hcn.2
      · rw [hq.1]; exact hq.2
      · rw [ho1.1]; exact ho1.2
      · rw [ho2.1]; exact ho2.2
      · rw [ho3.1]; exact ho3.2
      · rw [ho4.1]; exact ho4.2
      · decide
    rw [importQStep_accept db1 (initialQCatMap db) n ⟨c.name, q, o1, o2, o3, o4, "B", ex⟩
      cid hfields hlookup (by show pyUpper (pyStrip "B") ∈ validLetters; decide), hq.1, ho1.1, ho2.1, ho3.1, ho4.1, hex]
    rfl
  · exact ⟨c.name, q, o1, o2, o3, o4, "C", ex⟩
  · rw [← hname]
    exact rfl
  · have hfields : ∀ p ∈ qRequired ⟨c.name, q, o1, o2, o3, o4, "C", ex⟩,
        ¬ pyStrip p.2 = "" := by
      intro p hp
      simp only [qRequired, List.mem_cons, List.not_mem_nil, or_false] at hp
      rcases hp with h | h | h | h | h | h | h <;> subst h <;> simp only
      · rw [hcn.1]; exact hcn.2
      · rw [hq.1]; exact hq.2
      · rw [ho1.1]; exact ho1.2
      · rw [ho2.1]; exact ho2.2
      · rw [ho3.1]; exact ho3.2
      · rw [ho4.1]; exact ho4.2
      · decide
    rw [importQStep_accept db1 (initialQCatMap db) n ⟨c.name, q, o1, o2, o3, o4, "C", ex⟩
      cid hfields hlookup (by show pyUpper (pyStrip "C") ∈ validLetters; decide), hq.1, ho1.1, ho2.1, ho3.1, ho4.1, hex]
    rfl
  · exact ⟨c.name, q, o1, o2, o3, o4, "D", ex⟩
  · rw [← hname]
    exact rfl
  · have hfields : ∀ p ∈ qRequired ⟨c.name, q, o1, o2, o3, o4, "D", ex⟩,
        ¬ pyStrip p.2 = "" := by
      intro p hp
      simp only [qRequired, List.mem_cons, List.not_mem_nil, or_false] at hp
      rcases hp with h | h | h | h | h | h | h <;> subst h <;> simp only
      · rw [hcn.1]; exact hcn.2
      · rw [hq.1]; exact hq.2
      · rw [ho1.1]; exact ho1.2
      · rw [ho2.1]; exact ho2.2
      · rw [ho3.1]; exact ho3.2
      · rw [ho4.1]; exact ho4.2
      · decide
    rw [importQStep_accept db1 (initialQCatMap db) n ⟨c.name, q, o1, o2, o3, o4, "D", ex⟩
      cid hfields hlookup (by show pyUpper (pyStrip "D") ∈ validLetters; decide), hq.1, ho1.1, ho2.1, ho3.1, ho4.1, hex]
    rfl

/-- Exporting a list of well-formed questions and re-importing the resulting
rows succeeds row by row: every row is counted, no errors are produced, the
categories are untouched, and the imported ciphertexts decrypt to exactly the
original records in order. -/
theorem importQRows_of_exported (db : DB)
    (hndid : (db.categories.map (fun c => c.id)).Nodup)
    (hndname : (db.categories.map (fun c => c.name)).Nodup)
    (hclean : ∀ c ∈ db.categories, cleanStr c.name) :
    ∀ (qs : List QuestionRow), (∀ qr ∈ qs, QWF db qr) →
      ∀ (db1 : DB) (n : Nat),
      ∃ rows : List QuestionCsvRow,
        (qs.filterMap rowToQuestion).mapM (exportRow db) = some rows ∧
        rows.length = qs.length ∧
        ∃ dbOut : DB,
          importQRows db1 (initialQCatMap db) n rows = (dbOut, qs.length, []) ∧
          dbOut.categories = db1.categories ∧
          dbOut.scores = db1.scores ∧
          dbOut.questions.map (fun r => decrypt_data r.encrypted_data)
            = db1.questions.map (fun r => decrypt_data r.encrypted_data)
              ++ qs.map (fun r => decrypt_data r.encrypted_data) := by
  intro qs
  induction qs with
  | nil =>
      intro _ db1 n
      exact ⟨[], rfl, rfl, db1, rfl, rfl, rfl, by simp⟩
  | cons qr rest ih =>
      intro hwf db1 n
      obtain ⟨cid, q, o1, o2, o3, o4, ca, ex, hdec, hcat, hca1, hca4, hq, ho1, ho2, ho3, ho4,
        hex⟩ := hwf qr (List.mem_cons_self _ _)
      obtain ⟨j, row, hj, hrow, hstep⟩ :=
        export_import_one db db1 n qr cid q o1 o2 o3 o4 ca ex hdec hcat hca1 hca4
          hq ho1 ho2 ho3 ho4 hex hndid hclean hndname
      obtain ⟨rows, hrows, hlen, dbOut, himp, hcats, hscores, hqs⟩ :=
        ih (fun r hr => hwf r (List.mem_cons_of_mem _ hr))
          (add_question db1 cid q [o1, o2, o3, o4] ca ex) (n + 1)
      refine ⟨row :: rows, ?_, by simp [hlen], dbOut, ?_, ?_, ?_, ?_⟩
      · simp only [List.filterMap_cons, hj, List.mapM_cons, hrow, hrows]
        rfl
      · show importQRows db1 (initialQCatMap db) n (row :: rows) = _
        simp only [importQRows, hstep, himp]
        simp [Nat.add_comm]
      · rw [hcats]
        rfl
      · rw [hscores]
        rfl
      · rw [hqs]
        simp [add_question, decrypt_data_encrypt_data, hdec]

/-- C6 counterexample database: one stored question whose first option is the
empty string. -/
def dbEmptyOpt : DB :=
  ⟨[⟨1, "Cat", "d"⟩],
   [⟨1, 1, encrypt_data (questionJson 1 "Q" ["", "b", "c", "d"] 1 "")⟩],
   [], 2, 2, 1⟩

/-- The CSV row `dbEmptyOpt`'s single question exports to. -/
def rowEmptyOpt : QuestionCsvRow := ⟨"Cat", "Q", "", "b", "c", "d", "A", ""⟩

set_option maxRecDepth 100000 in
/-- C6 counterexample: a question whose Option A is the empty string exports
fine, but the importer then rejects the exported row ("Missing Option A"), so
export-then-clear-then-import loses the question instead of reproducing the
set — the round trip is not unconditional. -/
theorem c6_counterexample :
    export_questions_to_csv dbEmptyOpt = some [rowEmptyOpt] ∧
    dbEmptyOpt.questions.length = 1 ∧
    (import_questions_from_csv (clearQuestions dbEmptyOpt) [rowEmptyOpt]).1.questions = [] ∧
    (import_questions_from_csv (clearQuestions dbEmptyOpt) [rowEmptyOpt]).2.1 = 0 ∧
    (import_questions_from_csv (clearQuestions dbEmptyOpt) [rowEmptyOpt]).2.2
      = ["Row 2: Missing Option A"] := by decide

/-- C6 (amended): for a database whose categories have distinct ids and
distinct strip-invariant names and whose every question decrypts to a record
with exactly four options, answer in 1..4, strip-invariant nonempty text
fields and a resolvable category id, exporting all questions, clearing the
question table and re-importing the rows reproduces an equivalent question
set modulo id reassignment: the export succeeds with one row per question,
the import counts every row with no errors, categories and scores are
untouched, and the multiset of decrypted question records is unchanged. -/
theorem c6_export_import_roundtrip (db : DB) (h : DBWF db) :
    ∃ (rows : List QuestionCsvRow) (dbOut : DB),
      export_questions_to_csv db = some rows ∧
      rows.length = db.questions.length ∧
      import_questions_from_csv (clearQuestions db) rows = (dbOut, rows.length, []) ∧
      dbOut.categories = db.categories ∧
      dbOut.scores = db.scores ∧
      List.Perm (dbOut.questions.map (fun r => decrypt_data r.encrypted_data))
        (db.questions.map (fun r => decrypt_data r.encrypted_data)) := by
  obtain ⟨hndid, hndname, hclean, hq⟩ := h
  have hperm : List.Perm (List.insertionSort qIdLe db.questions) db.questions :=
    List.perm_insertionSort qIdLe db.questions
  obtain ⟨rows, hrows, hlen, dbOut, himp, hcats, hscores, hqs⟩ :=
    importQRows_of_exported db hndid hndname hclean
      (List.insertionSort qIdLe db.questions)
      (fun r hr => hq r (hperm.mem_iff.mp hr)) (clearQuestions db) 2
  refine ⟨rows, dbOut, hrows, by rw [hlen]; exact hperm.length_eq, ?_, hcats, hscores, ?_⟩
  · show importQRows (clearQuestions db) (initialQCatMap (clearQuestions db)) 2 rows = _
    rw [hlen]
    exact himp
  · rw [hqs]
    have hclr : (clearQuestions db).questions.map (fun r => decrypt_data r.encrypted_data)
        = [] := rfl
    rw [hclr, List.nil_append]
    exact hperm.map _

set_option maxRecDepth 100000 in
/-- C6 witness: the concrete well-formed database `dbTruthy` (one category,
one question) round-trips through export, clear and import. -/
theorem c6_export_import_roundtrip_witness :
    ∃ (rows : List QuestionCsvRow) (dbOut : DB),
      export_questions_to_csv dbTruthy = some rows ∧
      rows.length = dbTruthy.questions.length ∧
      import_questions_from_csv (clearQuestions dbTruthy) rows = (dbOut, rows.length, []) ∧
      dbOut.categories = dbTruthy.categories ∧
      dbOut.scores = dbTruthy.scores ∧
      List.Perm (dbOut.questions.map (fun r => decrypt_data r.encrypted_data))
        (dbTruthy.questions.map (fun r => decrypt_data r.encrypted_data)) := by
  have hwf : DBWF dbTruthy := by
    refine ⟨by decide, by decide, by decide, ?_⟩
    intro qr hq
    have he : qr = ⟨1, 1, encrypt_data (questionJson 1 "Q" ["a", "b", "c", "d"] 1 "")⟩ := by
      simpa [dbTruthy] using hq
    subst he
    exact ⟨1, "Q", "a", "b", "c", "d", 1, "",
      decrypt_data_encrypt_data _,
      ⟨⟨1, "Cat", "d"⟩, by decide, rfl⟩,
      by decide, by decide, by decide, by decide, by decide, by decide, by decide, rfl⟩
  exact c6_export_import_roundtrip dbTruthy hwf

end SwshQuiz
